import Mathlib

/-!
Verification of the llm_council deliberation engine against its specification.

The definitions below are shallow embeddings of the Python source:
  * `src/llm_council/peer_review_orchestrator.py` (Borda aggregation, verdict
    parsing, peer-review orchestration),
  * `src/llm_council/analysis/bradley_terry.py` (Bradley-Terry iterative
    scaling),
  * `src/llm_council/analysis/elo.py` (MLE Elo and bootstrap),
  * `src/llm_council/anonymization/core.py` (ranking parsing),
  * `src/llm_council/council.py` and `src/llm_council/roles/*` (orchestrator).

Python floats are idealised as exact rationals (`ℚ`) where the code performs
only field operations, and as reals (`ℝ`) where the code uses `exp`/`log`.
Python dicts are modelled as insertion-ordered association lists
(`List (String × _)`); dict equality in Python ignores entry order, so
properties about the "map" are stated through `List.lookup`.
-/

namespace LlmCouncil

/-! ## The PairwiseResult data model

`bradley_terry.PairwiseResult.__post_init__` validates `winner` to be one of
`"a"`, `"b"`, `None` and `margin` to be `"major"` or `"minor"`; the inductive
types below are exactly that validated value space (`Winner.tie` stands for
Python `None`). -/

inductive Winner where
  | a : Winner
  | b : Winner
  | tie : Winner
deriving DecidableEq, Repr

inductive Margin where
  | major : Margin
  | minor : Margin
deriving DecidableEq, Repr

structure PairwiseResult where
  item_a : String
  item_b : String
  winner : Winner
  margin : Margin
deriving DecidableEq, Repr

/-! ## Borda aggregation

`PeerReviewOrchestrator._borda_from_pairwise`.  The Python `scores` dict is an
insertion-ordered association list.  The code's weight table is
`{"major": 3.0, "minor": 1.0, "tie": 0.5}`; the branch `res.winner == "tie"`
compares against the *string* `"tie"`, while a validated tie record carries
Python `None` (`Winner.tie` here), so no branch of the `if` chain fires for a
tie record. -/

def bordaWeight : Margin → ℚ
  | .major => 3
  | .minor => 1

/-- Python `dict.setdefault(k, v)`: insert `(k, v)` at the end iff `k` absent. -/
def dictSetdefault (d : List (String × ℚ)) (k : String) (v : ℚ) :
    List (String × ℚ) :=
  if (d.lookup k).isSome then d else d ++ [(k, v)]

/-- Python `scores[k] += w` (the key is present, established by `setdefault`). -/
def dictAdd (d : List (String × ℚ)) (k : String) (w : ℚ) :
    List (String × ℚ) :=
  d.map fun p => if p.1 = k then (p.1, p.2 + w) else p

def bordaStep (d : List (String × ℚ)) (res : PairwiseResult) :
    List (String × ℚ) :=
  let d := dictSetdefault d res.item_a 0
  let d := dictSetdefault d res.item_b 0
  match res.winner with
  | .a => dictAdd d res.item_a (bordaWeight res.margin)
  | .b => dictAdd d res.item_b (bordaWeight res.margin)
  | .tie => d   -- Python: `None == "a"`, `None == "b"`, `None == "tie"` are all False

def bordaFromPairwise (l : List PairwiseResult) : List (String × ℚ) :=
  l.foldl bordaStep []

/-- Whether `x` takes part in record `r` (as `item_a` or `item_b`). -/
def involves (x : String) (r : PairwiseResult) : Prop :=
  r.item_a = x ∨ r.item_b = x

instance (x : String) (r : PairwiseResult) : Decidable (involves x r) := by
  unfold involves; infer_instance

/-- The credit record `r` actually grants to participant `x` in the source. -/
def bordaContrib (x : String) (r : PairwiseResult) : ℚ :=
  (if r.winner = .a ∧ r.item_a = x then bordaWeight r.margin else 0) +
    (if r.winner = .b ∧ r.item_b = x then bordaWeight r.margin else 0)

def majorWins (l : List PairwiseResult) (x : String) : ℕ :=
  (l.filter fun r =>
    ((r.winner = .a ∧ r.item_a = x) ∨ (r.winner = .b ∧ r.item_b = x)) ∧
      r.margin = .major).length

def minorWins (l : List PairwiseResult) (x : String) : ℕ :=
  (l.filter fun r =>
    ((r.winner = .a ∧ r.item_a = x) ∨ (r.winner = .b ∧ r.item_b = x)) ∧
      r.margin = .minor).length

lemma lookup_cons {β : Type} (a : String) (b : β) (l : List (String × β))
    (x : String) :
    List.lookup x ((a, b) :: l) = if x = a then some b else List.lookup x l := by
  by_cases h : x = a
  · simp [List.lookup, h]
  · have hb : (x == a) = false := beq_false_of_ne h
    simp [List.lookup, hb, h]

lemma lookup_append {β : Type} (d₁ d₂ : List (String × β)) (x : String) :
    (d₁ ++ d₂).lookup x = ((d₁.lookup x).or (d₂.lookup x)) := by
  induction d₁ with
  | nil => simp [List.lookup]
  | cons p rest ih =>
    obtain ⟨a, b⟩ := p
    rw [List.cons_append, lookup_cons, lookup_cons]
    by_cases h : x = a
    · rw [if_pos h, if_pos h]; rfl
    · rw [if_neg h, if_neg h, ih]

lemma lookup_setdefault (d : List (String × ℚ)) (k : String) (v : ℚ)
    (x : String) :
    (dictSetdefault d k v).lookup x =
      if x = k then some ((d.lookup k).getD v) else d.lookup x := by
  unfold dictSetdefault
  by_cases hk : (d.lookup k).isSome
  · obtain ⟨w, hw⟩ := Option.isSome_iff_exists.mp hk
    rw [if_pos hk]
    by_cases hx : x = k
    · rw [if_pos hx, hx, hw]; rfl
    · rw [if_neg hx]
  · have hk' : d.lookup k = none := Option.not_isSome_iff_eq_none.mp hk
    rw [if_neg hk, lookup_append, lookup_cons]
    by_cases hx : x = k
    · rw [if_pos hx, if_pos hx, hx, hk']
      rfl
    · rw [if_neg hx, if_neg hx]
      cases d.lookup x <;> rfl

lemma lookup_dictAdd (d : List (String × ℚ)) (k : String) (w : ℚ)
    (x : String) :
    (dictAdd d k w).lookup x =
      if x = k then (d.lookup x).map (· + w) else d.lookup x := by
  induction d with
  | nil =>
    show (List.lookup x []) = _
    by_cases hx : x = k <;> simp [List.lookup, hx]
  | cons p rest ih =>
    obtain ⟨a, b⟩ := p
    have hdef : dictAdd ((a, b) :: rest) k w =
        (if a = k then (a, b + w) else (a, b)) :: dictAdd rest k w := rfl
    rw [hdef]
    by_cases hpk : a = k
    · rw [if_pos hpk, lookup_cons]
      by_cases hx : x = a
      · have hxk : x = k := hx.trans hpk
        rw [if_pos hx, if_pos hxk, lookup_cons, if_pos hx]
        rfl
      · rw [if_neg hx, ih, lookup_cons, if_neg hx]
    · rw [if_neg hpk, lookup_cons]
      by_cases hx : x = a
      · have hxk : ¬ x = k := fun h => hpk (hx.symm.trans h)
        rw [if_pos hx, if_neg hxk, lookup_cons, if_pos hx]
      · rw [if_neg hx, ih, lookup_cons, if_neg hx]

lemma involves_iff (x : String) (r : PairwiseResult) :
    involves x r ↔ (x = r.item_a ∨ x = r.item_b) := by
  unfold involves
  constructor
  · rintro (h | h)
    · exact Or.inl h.symm
    · exact Or.inr h.symm
  · rintro (h | h)
    · exact Or.inl h.symm
    · exact Or.inr h.symm

lemma lookup_setdefault₂ (d : List (String × ℚ)) (r : PairwiseResult)
    (x : String) :
    ((dictSetdefault (dictSetdefault d r.item_a 0) r.item_b 0).lookup x) =
      if involves x r then some ((d.lookup x).getD 0) else d.lookup x := by
  rw [lookup_setdefault]
  by_cases ha : x = r.item_a
  · rw [if_pos (show involves x r from Or.inl ha.symm)]
    by_cases hb : x = r.item_b
    · rw [if_pos hb, lookup_setdefault, if_pos (hb ▸ ha : r.item_b = r.item_a),
        ha]
      rfl
    · rw [if_neg hb, lookup_setdefault, if_pos ha, ha]
  · by_cases hb : x = r.item_b
    · rw [if_pos hb, if_pos (show involves x r from Or.inr hb.symm),
        lookup_setdefault, if_neg (hb ▸ ha : ¬ r.item_b = r.item_a), hb]
    · rw [if_neg hb, lookup_setdefault, if_neg ha,
        if_neg (fun h => (involves_iff x r).mp h |>.elim ha hb)]

lemma lookup_bordaStep (d : List (String × ℚ)) (r : PairwiseResult)
    (x : String) :
    (bordaStep d r).lookup x =
      if involves x r then some ((d.lookup x).getD 0 + bordaContrib x r)
      else d.lookup x := by
  unfold bordaStep
  cases hw : r.winner with
  | a =>
    rw [lookup_dictAdd]
    by_cases ha : x = r.item_a
    · have hinv : involves x r := Or.inl ha.symm
      rw [if_pos ha, lookup_setdefault₂, if_pos hinv, if_pos hinv]
      have hc : bordaContrib x r = bordaWeight r.margin := by
        unfold bordaContrib
        rw [if_pos ⟨hw, ha.symm⟩,
          if_neg (fun h => Winner.noConfusion (hw ▸ h.1)), add_zero]
      rw [hc]
      rfl
    · rw [if_neg ha, lookup_setdefault₂]
      by_cases hi : involves x r
      · rw [if_pos hi, if_pos hi]
        have hc : bordaContrib x r = 0 := by
          unfold bordaContrib
          rw [if_neg (fun h => ha h.2.symm),
            if_neg (fun h => Winner.noConfusion (hw ▸ h.1)), add_zero]
        rw [hc, add_zero]
      · rw [if_neg hi, if_neg hi]
  | b =>
    rw [lookup_dictAdd]
    by_cases hb : x = r.item_b
    · have hinv : involves x r := Or.inr hb.symm
      rw [if_pos hb, lookup_setdefault₂, if_pos hinv, if_pos hinv]
      have hc : bordaContrib x r = bordaWeight r.margin := by
        unfold bordaContrib
        rw [if_neg (fun h => Winner.noConfusion (hw ▸ h.1)),
          if_pos ⟨hw, hb.symm⟩, zero_add]
      rw [hc]
      rfl
    · rw [if_neg hb, lookup_setdefault₂]
      by_cases hi : involves x r
      · rw [if_pos hi, if_pos hi]
        have hc : bordaContrib x r = 0 := by
          unfold bordaContrib
          rw [if_neg (fun h => Winner.noConfusion (hw ▸ h.1)),
            if_neg (fun h => hb h.2.symm), add_zero]
        rw [hc, add_zero]
      · rw [if_neg hi, if_neg hi]
  | tie =>
    rw [lookup_setdefault₂]
    by_cases hi : involves x r
    · rw [if_pos hi, if_pos hi]
      have hc : bordaContrib x r = 0 := by
        unfold bordaContrib
        rw [if_neg (fun h => Winner.noConfusion (hw ▸ h.1)),
          if_neg (fun h => Winner.noConfusion (hw ▸ h.1)), add_zero]
      rw [hc, add_zero]
    · rw [if_neg hi, if_neg hi]

lemma bordaContrib_eq_zero (x : String) (r : PairwiseResult)
    (h : ¬ involves x r) : bordaContrib x r = 0 := by
  unfold bordaContrib involves at *
  push_neg at h
  simp [h.1, h.2]

lemma sum_bordaContrib_eq_zero (x : String) (l : List PairwiseResult)
    (h : ¬ ∃ r ∈ l, involves x r) : (l.map (bordaContrib x)).sum = 0 := by
  apply List.sum_eq_zero
  intro q hq
  obtain ⟨r, hr, hrq⟩ := List.mem_map.mp hq
  exact hrq ▸ bordaContrib_eq_zero x r fun hinv => h ⟨r, hr, hinv⟩

lemma lookup_borda_foldl (l : List PairwiseResult)
    (d : List (String × ℚ)) (x : String) :
    (l.foldl bordaStep d).lookup x =
      if ∃ r ∈ l, involves x r
      then some ((d.lookup x).getD 0 + (l.map (bordaContrib x)).sum)
      else d.lookup x := by
  induction l generalizing d with
  | nil => simp
  | cons r rest ih =>
    rw [List.foldl_cons, ih, lookup_bordaStep, List.map_cons, List.sum_cons]
    by_cases hr : involves x r
    · rw [if_pos hr,
        if_pos (show ∃ r' ∈ r :: rest, involves x r' from
          ⟨r, List.mem_cons_self r rest, hr⟩)]
      by_cases hrest : ∃ r' ∈ rest, involves x r'
      · rw [if_pos hrest]
        congr 1
        show (d.lookup x).getD 0 + bordaContrib x r + _ = _
        ring
      · rw [if_neg hrest, sum_bordaContrib_eq_zero x rest hrest, add_zero]
    · rw [if_neg hr, bordaContrib_eq_zero x r hr, zero_add]
      by_cases hrest : ∃ r' ∈ rest, involves x r'
      · rw [if_pos hrest,
          if_pos (show ∃ r' ∈ r :: rest, involves x r' from by
            obtain ⟨r', h₁, h₂⟩ := hrest
            exact ⟨r', List.mem_cons_of_mem r h₁, h₂⟩)]
      · rw [if_neg hrest,
          if_neg (show ¬ ∃ r' ∈ r :: rest, involves x r' from by
            rintro ⟨r', h₁, h₂⟩
            rcases List.mem_cons.mp h₁ with h | h
            · exact hr (h ▸ h₂)
            · exact hrest ⟨r', h, h₂⟩)]

lemma bordaContrib_of_win (x : String) (r : PairwiseResult)
    (hwin : (r.winner = .a ∧ r.item_a = x) ∨ (r.winner = .b ∧ r.item_b = x)) :
    bordaContrib x r = bordaWeight r.margin := by
  unfold bordaContrib
  rcases hwin with ⟨h₁, h₂⟩ | ⟨h₁, h₂⟩
  · rw [if_pos ⟨h₁, h₂⟩,
      if_neg (fun h => Winner.noConfusion (h₁ ▸ h.1)), add_zero]
  · rw [if_neg (fun h => Winner.noConfusion (h₁ ▸ h.1)),
      if_pos ⟨h₁, h₂⟩, zero_add]

/-- The per-record credit, rewritten as a win count. -/
lemma sum_bordaContrib_eq_counts (l : List PairwiseResult) (x : String) :
    (l.map (bordaContrib x)).sum =
      3 * (majorWins l x : ℚ) + (minorWins l x : ℚ) := by
  induction l with
  | nil => simp [majorWins, minorWins]
  | cons r rest ih =>
    rw [List.map_cons, List.sum_cons, ih]
    unfold majorWins minorWins
    by_cases hwin :
        (r.winner = .a ∧ r.item_a = x) ∨ (r.winner = .b ∧ r.item_b = x)
    · cases hm : r.margin with
      | major =>
        rw [bordaContrib_of_win x r hwin, hm]
        simp only [List.filter_cons, hwin, hm, true_and, and_true, and_false,
          decide_True, decide_False, if_true, if_false, List.length_cons,
          bordaWeight, reduceCtorEq]
        push_cast
        ring
      | minor =>
        rw [bordaContrib_of_win x r hwin, hm]
        simp only [List.filter_cons, hwin, hm, true_and, and_true, and_false,
          decide_True, decide_False, if_true, if_false, List.length_cons,
          bordaWeight, reduceCtorEq]
        push_cast
        ring
    · have hnot := not_or.mp hwin
      have hc : bordaContrib x r = 0 := by
        unfold bordaContrib
        rw [if_neg hnot.1, if_neg hnot.2, add_zero]
      rw [hc]
      simp only [List.filter_cons, hwin, false_and, decide_False,
        Bool.false_eq_true, if_false]
      ring

/-- Closed form of the Borda dictionary built by `_borda_from_pairwise`. -/
lemma borda_lookup_eq (l : List PairwiseResult) (x : String) :
    (bordaFromPairwise l).lookup x =
      if ∃ r ∈ l, involves x r
      then some (3 * (majorWins l x : ℚ) + (minorWins l x : ℚ))
      else none := by
  unfold bordaFromPairwise
  rw [lookup_borda_foldl, sum_bordaContrib_eq_counts]
  by_cases h : ∃ r ∈ l, involves x r
  · rw [if_pos h, if_pos h]
    simp
  · rw [if_neg h, if_neg h]
    rfl


/-! ## Bradley-Terry iterative scaling

`BradleyTerryAnalyzer` with `major_win_multiplier = 3`:
`_compute_win_matrix`, `_build_item_map` (`sorted(set(...))`) and
`_fit_iterative_scaling` (`max_iter = 100`, `tol = 1e-6`).  The win matrix is
rational; the iteration itself is real-valued because the geometric-mean
renormalisation uses `math.log` / `math.exp`. -/

/-- `wins[key] = wins.get(key, 0.0) + c`. -/
def addWin (w : String × String → ℚ) (key : String × String) (c : ℚ) :
    String × String → ℚ :=
  fun p => if p = key then w p + c else w p

def winsStep (w : String × String → ℚ) (r : PairwiseResult) :
    String × String → ℚ :=
  match r.winner with
  | .a => addWin w (r.item_a, r.item_b) (if r.margin = .major then 3 else 1)
  | .b => addWin w (r.item_b, r.item_a) (if r.margin = .major then 3 else 1)
  | .tie => addWin (addWin w (r.item_a, r.item_b) (1/2)) (r.item_b, r.item_a) (1/2)

/-- `BradleyTerryAnalyzer._compute_win_matrix` as a total function (absent
keys read as `0`). -/
def winMatrix (l : List PairwiseResult) : String × String → ℚ :=
  l.foldl winsStep (fun _ => 0)

/-- Insertion into a `≤`-sorted list of strings (Python string comparison is
codepoint-lexicographic, as is Lean's). -/
def insertSorted (x : String) : List String → List String
  | [] => [x]
  | y :: ys => if y < x then y :: insertSorted x ys else x :: y :: ys

/-- Python `sorted(...)`. -/
def sortStrings (l : List String) : List String :=
  l.foldl (fun acc x => insertSorted x acc) []

/-- `BradleyTerryAnalyzer._build_item_map`: `sorted(set(items))` where the set
collects `item_a` and `item_b` of every record. -/
def btItems (l : List PairwiseResult) : List String :=
  sortStrings ((l.map (·.item_a) ++ l.map (·.item_b)).dedup)

/-- `total_wins[item]`: the win matrix is supported on participant pairs, so
iterating over the dict entries is summing `wins[(item, j)]` over all
participants `j` (including `j = item`, reachable only from degenerate records
with `item_a == item_b`). -/
def totalWins (wins : String × String → ℚ) (items : List String)
    (item : String) : ℚ :=
  (items.map fun j => wins (item, j)).sum

/-- The `denom` accumulation of `_fit_iterative_scaling` (opponents with a
positive comparison count only). -/
noncomputable def btDenom (wins : String × String → ℚ) (items : List String)
    (s : String → ℝ) (item : String) : ℝ :=
  (items.map fun other =>
    if other ≠ item then
      (if 0 < wins (item, other) + wins (other, item) then
        ((wins (item, other) + wins (other, item) : ℚ) : ℝ) /
          (s item + s other)
      else 0)
    else 0).sum

/-- One item's `new_scores[item]`, including the `max(_, 1e-10)` floor. -/
noncomputable def btNewScore (wins : String × String → ℚ)
    (items : List String) (s : String → ℝ) (item : String) : ℝ :=
  let denom := btDenom wins items s item
  max (if 0 < denom then ((totalWins wins items item : ℚ) : ℝ) / denom
       else s item)
    (1/10^10)

/-- `max_change` over the item loop (initial value `0.0`). -/
noncomputable def btMaxChange (items : List String) (new old : String → ℝ) :
    ℝ :=
  (items.map fun i => |new i - old i|).foldl max 0

/-- `geo_mean = exp(sum(log(max(s, 1e-10))) / len(scores))`. -/
noncomputable def geoMean (vals : List ℝ) : ℝ :=
  Real.exp ((vals.map fun s => Real.log (max s (1/10^10))).sum / vals.length)

/-- `scores = {k: max(v / geo_mean, 1e-10) for k, v in scores.items()}`. -/
noncomputable def btNormalize (items : List String) (new : String → ℝ) :
    String → ℝ :=
  fun i => max (new i / geoMean (items.map new)) (1/10^10)

/-- The `for _ in range(max_iter)` loop: compute `new_scores` and
`max_change`, renormalise, and stop when `max_change < tol`. -/
noncomputable def btLoop (wins : String × String → ℚ) (items : List String) :
    ℕ → (String → ℝ) → (String → ℝ)
  | 0, s => s
  | fuel + 1, s =>
    let new := fun i => btNewScore wins items s i
    let mc := btMaxChange items new s
    let norm := btNormalize items new
    if mc < 1/10^6 then norm else btLoop wins items fuel norm

/-- `BradleyTerryAnalyzer._fit_iterative_scaling` (the `total_losses` dict of
the source is computed but never read, and is omitted). -/
noncomputable def fitIterativeScaling (l : List PairwiseResult) :
    List (String × ℝ) :=
  match btItems l with
  | [] => []
  | [i] => [(i, 1)]
  | i :: j :: rest =>
    let items := i :: j :: rest
    let final := btLoop (winMatrix l) items 100 (fun _ => 1)
    items.map fun m => (m, final m)

lemma mem_insertSorted (x y : String) (l : List String) :
    y ∈ insertSorted x l ↔ y = x ∨ y ∈ l := by
  induction l with
  | nil => simp [insertSorted]
  | cons z zs ih =>
    unfold insertSorted
    by_cases h : z < x
    · rw [if_pos h]
      simp only [List.mem_cons, ih]
      tauto
    · rw [if_neg h]
      simp only [List.mem_cons]

lemma mem_sortStrings_aux (m : List String) (acc : List String) (x : String) :
    x ∈ m.foldl (fun acc y => insertSorted y acc) acc ↔ x ∈ acc ∨ x ∈ m := by
  induction m generalizing acc with
  | nil => simp
  | cons y ys ih =>
    rw [List.foldl_cons, ih]
    simp only [mem_insertSorted, List.mem_cons]
    tauto

lemma mem_sortStrings (m : List String) (x : String) :
    x ∈ sortStrings m ↔ x ∈ m := by
  unfold sortStrings
  rw [mem_sortStrings_aux]
  simp

lemma mem_btItems (l : List PairwiseResult) (x : String) :
    x ∈ btItems l ↔ ∃ r ∈ l, involves x r := by
  unfold btItems
  rw [mem_sortStrings, List.mem_dedup, List.mem_append]
  constructor
  · rintro (h | h) <;>
      · obtain ⟨r, hr, hrx⟩ := List.mem_map.mp h
        exact ⟨r, hr, by unfold involves; tauto⟩
  · rintro ⟨r, hr, hx | hx⟩
    · exact Or.inl (List.mem_map.mpr ⟨r, hr, hx⟩)
    · exact Or.inr (List.mem_map.mpr ⟨r, hr, hx⟩)

lemma btItems_ne_nil (l : List PairwiseResult) (hl : l ≠ []) :
    btItems l ≠ [] := by
  obtain ⟨r, rest, rfl⟩ := List.exists_cons_of_ne_nil hl
  intro h
  have : r.item_a ∈ btItems (r :: rest) :=
    (mem_btItems _ _).mpr ⟨r, List.mem_cons_self r rest, Or.inl rfl⟩
  rw [h] at this
  exact List.not_mem_nil _ this

lemma one_le_tenPow : (0 : ℝ) < 1/10^10 := by norm_num

lemma btNewScore_ge (wins : String × String → ℚ) (items : List String)
    (s : String → ℝ) (item : String) :
    (1/10^10 : ℝ) ≤ btNewScore wins items s item :=
  le_max_right _ _

lemma btNormalize_pos (items : List String) (new : String → ℝ) (i : String) :
    (0 : ℝ) < btNormalize items new i :=
  lt_of_lt_of_le one_le_tenPow (le_max_right _ _)

lemma btLoop_pos (wins : String × String → ℚ) (items : List String)
    (fuel : ℕ) (s : String → ℝ) (hs : ∀ i, 0 < s i) :
    ∀ i, 0 < btLoop wins items fuel s i := by
  induction fuel generalizing s with
  | zero => exact hs
  | succ n ih =>
    intro i
    have hdef : btLoop wins items (n + 1) s =
        (if btMaxChange items (fun j => btNewScore wins items s j) s < 1/10^6
          then btNormalize items (fun j => btNewScore wins items s j)
          else btLoop wins items n
            (btNormalize items (fun j => btNewScore wins items s j))) := rfl
    rw [hdef]
    split
    · exact btNormalize_pos items _ i
    · exact ih (btNormalize items _) (fun j => btNormalize_pos items _ j) i

/-- Whatever the loop does, with at least one iteration of fuel the returned
state is the renormalisation of some floored score vector. -/
lemma btLoop_shape (wins : String × String → ℚ) (items : List String) :
    ∀ fuel : ℕ, 1 ≤ fuel → ∀ s : String → ℝ,
      ∃ v : String → ℝ, (∀ i, (1/10^10 : ℝ) ≤ v i) ∧
        btLoop wins items fuel s = btNormalize items v := by
  intro fuel
  induction fuel with
  | zero => intro h; exact absurd h (by norm_num)
  | succ n ih =>
    intro _ s
    show (∃ v, _ ∧ (if btMaxChange items (fun i => btNewScore wins items s i) s < 1/10^6
        then btNormalize items (fun i => btNewScore wins items s i)
        else btLoop wins items n (btNormalize items (fun i => btNewScore wins items s i))) = _)
    split
    · exact ⟨fun i => btNewScore wins items s i,
        fun i => btNewScore_ge wins items s i, rfl⟩
    · match n, ih with
      | 0, _ =>
        exact ⟨fun i => btNewScore wins items s i,
          fun i => btNewScore_ge wins items s i, rfl⟩
      | m + 1, ih =>
        exact ih (Nat.succ_le_succ (Nat.zero_le m)) _

lemma list_prod_div (l : List ℝ) (g : ℝ) :
    (l.map (· / g)).prod = l.prod / g ^ l.length := by
  induction l with
  | nil => simp
  | cons a l ih =>
    rw [List.map_cons, List.prod_cons, List.prod_cons, ih, List.length_cons,
      pow_succ]
    field_simp
    ring

lemma list_exp_sum (l : List ℝ) :
    Real.exp l.sum = (l.map Real.exp).prod := by
  induction l with
  | nil => simp
  | cons a l ih => rw [List.sum_cons, Real.exp_add, ih, List.map_cons,
      List.prod_cons]

/-- If the final renormalisation floors nothing (every output is strictly
above `1e-10`), the outputs multiply to `1`. -/
lemma btNormalize_prod_one (items : List String) (v : String → ℝ)
    (hne : items ≠ [])
    (hv : ∀ i, (1/10^10 : ℝ) ≤ v i)
    (hfloor : ∀ i ∈ items, (1/10^10 : ℝ) < btNormalize items v i) :
    (items.map (btNormalize items v)).prod = 1 := by
  have hvpos : ∀ i, (0 : ℝ) < v i :=
    fun i => lt_of_lt_of_le one_le_tenPow (hv i)
  have hmax : ∀ i, max (v i) (1/10^10) = v i := fun i => max_eq_left (hv i)
  -- the geometric mean is exp of the mean log, and its `n`-th power is the
  -- product of the (positive) scores
  set g := geoMean (items.map v) with hg
  have hlogs : ((items.map v).map fun s => Real.log (max s (1/10^10))) =
      (items.map v).map Real.log := by
    apply List.map_congr_left
    intro a ha
    obtain ⟨i, _, rfl⟩ := List.mem_map.mp ha
    rw [hmax i]
  have hglen : g ^ items.length = (items.map v).prod := by
    rw [hg]
    unfold geoMean
    rw [hlogs, ← Real.exp_nat_mul]
    rw [List.length_map]
    rcases items with _ | ⟨i, is⟩
    · exact absurd rfl hne
    · have hlen : ((i :: is).length : ℝ) ≠ 0 :=
        Nat.cast_ne_zero.mpr (by simp)
      rw [mul_comm, div_mul_cancel₀ _ hlen, list_exp_sum, List.map_map]
      have hcongr : List.map (Real.exp ∘ Real.log) (List.map v (i :: is)) =
          List.map id (List.map v (i :: is)) :=
        List.map_congr_left (fun a ha => by
          obtain ⟨j, _, rfl⟩ := List.mem_map.mp ha
          simpa using Real.exp_log (hvpos j))
      rw [hcongr, List.map_id]
  have hnormval : ∀ i ∈ items, btNormalize items v i = v i / g := by
    intro i hi
    have := hfloor i hi
    unfold btNormalize at this ⊢
    rcases max_cases (v i / geoMean (items.map v)) ((1:ℝ)/10^10) with
      ⟨heq, _⟩ | ⟨heq, _⟩
    · exact heq
    · rw [heq] at this
      exact absurd this (lt_irrefl _)
  have hgpos : 0 < g := by
    rw [hg]; unfold geoMean; exact Real.exp_pos _
  rw [List.map_congr_left hnormval]
  have hsplit : items.map (fun a => v a / g) = (items.map v).map (· / g) := by
    rw [List.map_map]
    rfl
  rw [hsplit, list_prod_div, List.length_map, hglen]
  have hprodne : (items.map v).prod ≠ 0 := by
    apply List.prod_ne_zero
    intro hx
    obtain ⟨i, _, hzero⟩ := List.mem_map.mp hx
    exact ne_of_gt (hvpos i) hzero
  exact div_self hprodne

lemma fit_singleton (l : List PairwiseResult) (i : String)
    (hitems : btItems l = [i]) : fitIterativeScaling l = [(i, 1)] := by
  unfold fitIterativeScaling
  rw [hitems]

lemma fit_general (l : List PairwiseResult) (i j : String)
    (rest : List String) (hitems : btItems l = i :: j :: rest) :
    fitIterativeScaling l =
      (i :: j :: rest).map fun m =>
        (m, btLoop (winMatrix l) (i :: j :: rest) 100 (fun _ => 1) m) := by
  unfold fitIterativeScaling
  rw [hitems]

namespace Claims

/-- C2, counterexample to the claim as stated.  The claim asserts that a tie
record grants `0.5` to each involved participant.  On the single (validated)
tie record `{item_a := "x", item_b := "y", winner := tie(None)}`, the claimed
score of `"x"` would be `3·0 + 1·0 + 0.5·1 = 1/2`, but
`_borda_from_pairwise` returns `0` for `"x"`: its tie branch compares
`res.winner == "tie"` against the string `"tie"` while a validated tie record
stores Python `None`, so no branch fires. -/
theorem C2_borda_tie_counterexample :
    (LlmCouncil.bordaFromPairwise
        [⟨"x", "y", .tie, .minor⟩]).lookup "x" = some 0 ∧
      (3 * (0 : ℚ) + 1 * 0 + (1/2) * 1 ≠ (0 : ℚ)) := by
  constructor
  · rfl
  · norm_num

/-- C2 (amended).  For every list of validated pairwise records, the Borda
aggregator assigns each participant `x` the score `3·(major wins of x) +
1·(minor wins of x)`; tie records contribute nothing to either side (they only
ensure both participants appear in the map, with default `0`), and a
participant that appears only as a loser scores `0`.  Consequently the score
map (lookup function) is invariant under any permutation of the records. -/
theorem C2_borda_score_formula_and_permutation_invariance
    (l l' : List PairwiseResult) (x : String) (hperm : l.Perm l') :
    ((LlmCouncil.bordaFromPairwise l).lookup x =
        if ∃ r ∈ l, involves x r
        then some (3 * (majorWins l x : ℚ) + (minorWins l x : ℚ))
        else none)
      ∧ (LlmCouncil.bordaFromPairwise l).lookup x =
          (LlmCouncil.bordaFromPairwise l').lookup x := by
  refine ⟨borda_lookup_eq l x, ?_⟩
  rw [borda_lookup_eq l x, borda_lookup_eq l' x]
  have hmaj : majorWins l x = majorWins l' x :=
    (hperm.filter _).length_eq
  have hmin : minorWins l x = minorWins l' x :=
    (hperm.filter _).length_eq
  have hex : (∃ r ∈ l, involves x r) ↔ (∃ r ∈ l', involves x r) :=
    ⟨fun ⟨r, h₁, h₂⟩ => ⟨r, hperm.mem_iff.mp h₁, h₂⟩,
      fun ⟨r, h₁, h₂⟩ => ⟨r, hperm.mem_iff.mpr h₁, h₂⟩⟩
  rw [hmaj, hmin, if_congr hex rfl rfl]

/-- C2, witness: the amended theorem applied to a concrete two-record list and
its reversal. -/
theorem C2_borda_witness :
    (([⟨"x", "y", .a, .major⟩, ⟨"x", "y", .b, .minor⟩] :
        List PairwiseResult).Perm
      [⟨"x", "y", .b, .minor⟩, ⟨"x", "y", .a, .major⟩])
    ∧ (((LlmCouncil.bordaFromPairwise
          [⟨"x", "y", .a, .major⟩, ⟨"x", "y", .b, .minor⟩]).lookup "x" =
        if ∃ r ∈ [(⟨"x", "y", .a, .major⟩ : PairwiseResult),
            ⟨"x", "y", .b, .minor⟩], involves "x" r
        then some (3 * (majorWins
            [⟨"x", "y", .a, .major⟩, ⟨"x", "y", .b, .minor⟩] "x" : ℚ)
          + (minorWins
            [⟨"x", "y", .a, .major⟩, ⟨"x", "y", .b, .minor⟩] "x" : ℚ))
        else none)
      ∧ (LlmCouncil.bordaFromPairwise
          [⟨"x", "y", .a, .major⟩, ⟨"x", "y", .b, .minor⟩]).lookup "x" =
        (LlmCouncil.bordaFromPairwise
          [⟨"x", "y", .b, .minor⟩, ⟨"x", "y", .a, .major⟩]).lookup "x") :=
  ⟨by decide,
    C2_borda_score_formula_and_permutation_invariance _ _ "x" (by decide)⟩

end Claims

end LlmCouncil
namespace LlmCouncil

/-! ## MLE Elo (`analysis/elo.py`)

`compute_mle_elo` delegates the logistic regression itself to
`sklearn.linear_model.LogisticRegression`; the solver is therefore a
parameter of the embedding (a map from the design matrix `X` and target
vector `Y` to a coefficient per model index).  Everything the claims are
about — the battle expansion, the constant-outcome guard, and the
reference-anchoring — is embedded from the source. -/

inductive BattleWinner where
  | model_a : BattleWinner
  | model_b : BattleWinner
  | btie : BattleWinner
deriving DecidableEq, Repr

structure Battle where
  model_a : String
  model_b : String
  winner : BattleWinner
deriving DecidableEq, Repr

/-- `_results_to_battles` with `major_win_multiplier = 3`: a tie (Python
`None`) yields one `"tie"` battle, a win yields the battle repeated 3 times
for a major margin and once otherwise.  The `else: continue` branch of the
source is unreachable for validated `PairwiseResult`s. -/
def resultsToBattles (l : List PairwiseResult) : List Battle :=
  l.flatMap fun r =>
    match r.winner with
    | .tie => [⟨r.item_a, r.item_b, .btie⟩]
    | .a => List.replicate (if r.margin = .major then 3 else 1)
        ⟨r.item_a, r.item_b, .model_a⟩
    | .b => List.replicate (if r.margin = .major then 3 else 1)
        ⟨r.item_a, r.item_b, .model_b⟩

/-- `models = sorted(set(...))` over the battles. -/
def eloModelsOfBattles (bs : List Battle) : List String :=
  sortStrings ((bs.map (·.model_a) ++ bs.map (·.model_b)).dedup)

def eloModels (results : List PairwiseResult) : List String :=
  eloModelsOfBattles (resultsToBattles results)

/-- Target vector `Y` over the duplicated battle list: `1` for a
`model_a` win, and for ties `1` on the first half of the duplicated list,
`0` on the second. -/
def designY (battles2 : List Battle) : List ℚ :=
  battles2.enum.map fun iq =>
    match iq.2.winner with
    | .model_a => 1
    | .btie => if iq.1 < battles2.length / 2 then 1 else 0
    | .model_b => 0

/-- Design matrix `X`: `log(base)` in the winner-side column, `-log(base)` in
the loser-side column.  The source assigns `X[i, idx_a]` first and
`X[i, idx_b]` second, so for a degenerate battle with `model_a == model_b`
the second assignment wins — hence `model_b` is tested first here. -/
noncomputable def designX (battles2 : List Battle) (models : List String)
    (base : ℝ) : List (List ℝ) :=
  battles2.map fun b =>
    models.map fun m =>
      if m = b.model_b then -Real.log base
      else if m = b.model_a then Real.log base
      else 0

/-- `compute_mle_elo`.  `solver X Y idx` stands for
`LogisticRegression(fit_intercept=False, penalty=None, tol=1e-8).fit(X, Y).coef_[0][idx]`. -/
noncomputable def computeMleElo (solver : List (List ℝ) → List ℚ → ℕ → ℝ)
    (results : List PairwiseResult) (init_rating : ℝ) (scale : ℝ) (base : ℝ)
    (reference_item : Option String) : List (String × ℝ) :=
  if results = [] then []
  else
    let battles := resultsToBattles results
    if battles = [] then []
    else
      let models := eloModelsOfBattles battles
      let battles2 := battles ++ battles
      let Y := designY battles2
      if Y.dedup.length < 2 then models.map fun m => (m, init_rating)
      else
        let coef := solver (designX battles2 models base) Y
        let elo : String → ℝ := fun m =>
          scale * coef (models.indexOf m) + init_rating
        let ref := reference_item.getD (models.headD "")
        if ref ∈ models then
          models.map fun m => (m, elo m + (init_rating - elo ref))
        else
          models.map fun m => (m, elo m)

lemma lookup_map_pair {β : Type} (models : List String) (f : String → β)
    (m : String) (hm : m ∈ models) :
    (models.map fun x => (x, f x)).lookup m = some (f m) := by
  induction models with
  | nil => exact absurd hm (List.not_mem_nil m)
  | cons y ys ih =>
    rw [List.map_cons, lookup_cons]
    by_cases hmy : m = y
    · rw [if_pos hmy, hmy]
    · rw [if_neg hmy]
      exact ih (List.mem_of_ne_of_mem hmy hm)

lemma sorted_insertSorted (x : String) (l : List String)
    (h : l.Sorted (· ≤ ·)) : (insertSorted x l).Sorted (· ≤ ·) := by
  induction l with
  | nil => simp [insertSorted]
  | cons y ys ih =>
    rw [List.sorted_cons] at h
    unfold insertSorted
    by_cases hyx : y < x
    · rw [if_pos hyx, List.sorted_cons]
      refine ⟨?_, ih h.2⟩
      intro b hb
      rcases (mem_insertSorted x b ys).mp hb with rfl | hb
      · exact le_of_lt hyx
      · exact h.1 b hb
    · rw [if_neg hyx, List.sorted_cons]
      refine ⟨?_, List.sorted_cons.mpr h⟩
      intro b hb
      rcases List.mem_cons.mp hb with rfl | hb
      · exact le_of_not_lt hyx
      · exact le_trans (le_of_not_lt hyx) (h.1 b hb)

lemma sortStrings_sorted (m : List String) :
    (sortStrings m).Sorted (· ≤ ·) := by
  unfold sortStrings
  have : ∀ acc : List String, acc.Sorted (· ≤ ·) →
      (m.foldl (fun acc x => insertSorted x acc) acc).Sorted (· ≤ ·) := by
    induction m with
    | nil => intro acc h; exact h
    | cons y ys ih =>
      intro acc h
      exact ih _ (sorted_insertSorted y acc h)
  exact this [] (by simp)

lemma headD_mem {l : List String} (h : l ≠ []) : l.headD "" ∈ l := by
  cases l with
  | nil => exact absurd rfl h
  | cons a t => exact List.mem_cons_self a t

lemma headD_le_of_sorted {l : List String} (h : l.Sorted (· ≤ ·)) :
    ∀ m ∈ l, l.headD "" ≤ m := by
  cases l with
  | nil => intro m hm; exact absurd hm (List.not_mem_nil m)
  | cons a t =>
    rw [List.sorted_cons] at h
    intro m hm
    rcases List.mem_cons.mp hm with rfl | hm
    · exact le_refl _
    · exact h.1 m hm

lemma resultsToBattles_ne_nil (results : List PairwiseResult)
    (h : results ≠ []) : resultsToBattles results ≠ [] := by
  obtain ⟨r, rest, rfl⟩ := List.exists_cons_of_ne_nil h
  unfold resultsToBattles
  rw [List.flatMap_cons]
  intro hcontra
  have h2 := (List.append_eq_nil.mp hcontra).1
  rcases hw : r.winner with _ | _ | _ <;> rw [hw] at h2
  · by_cases hmaj : r.margin = Margin.major <;> simp [hmaj] at h2
  · by_cases hmaj : r.margin = Margin.major <;> simp [hmaj] at h2
  · simp at h2

lemma eloModels_ne_nil (results : List PairwiseResult) (h : results ≠ []) :
    eloModels results ≠ [] := by
  obtain ⟨b, bs, hb⟩ :=
    List.exists_cons_of_ne_nil (resultsToBattles_ne_nil results h)
  unfold eloModels eloModelsOfBattles
  intro hcontra
  have hmem : b.model_a ∈ sortStrings
      (((resultsToBattles results).map (·.model_a) ++
        (resultsToBattles results).map (·.model_b)).dedup) := by
    rw [mem_sortStrings, List.mem_dedup, List.mem_append]
    exact Or.inl (List.mem_map.mpr ⟨b, by rw [hb]; exact List.mem_cons_self b bs, rfl⟩)
  rw [hcontra] at hmem
  exact List.not_mem_nil _ hmem

end LlmCouncil
namespace LlmCouncil
namespace Claims

/-- C3 (amended).  For every non-empty record list, the fallback
Bradley-Terry fit `_fit_iterative_scaling` returns scores keyed by exactly the
sorted distinct participants (those appearing as `item_a` or `item_b`), every
returned score is strictly positive, and — provided every returned score is
strictly above the `1e-10` floor, i.e. the final renormalisation clamped
nothing — the product of the returned scores (equivalently, geometric mean 1)
equals `1`.  The unconditional geometric-mean claim of the spec fails when the
floor engages; see the status notes. -/
theorem C3_bt_fit_keys_positive_and_conditional_gm
    (l : List PairwiseResult) (hl : l ≠ []) :
    ((fitIterativeScaling l).map Prod.fst = btItems l)
    ∧ (∀ x, x ∈ (fitIterativeScaling l).map Prod.fst ↔ ∃ r ∈ l, involves x r)
    ∧ (∀ p ∈ fitIterativeScaling l, 0 < p.2)
    ∧ ((∀ p ∈ fitIterativeScaling l, (1/10^10 : ℝ) < p.2) →
        ((fitIterativeScaling l).map Prod.snd).prod = 1) := by
  have hkeys : (fitIterativeScaling l).map Prod.fst = btItems l := by
    rcases hitems : btItems l with _ | ⟨i, rest0⟩
    · exact absurd hitems (btItems_ne_nil l hl)
    · rcases rest0 with _ | ⟨j, rest⟩
      · rw [fit_singleton l i hitems]
        rfl
      · rw [fit_general l i j rest hitems, List.map_map]
        exact (List.map_congr_left fun a _ => rfl).trans (List.map_id _)
  refine ⟨hkeys, ?_, ?_, ?_⟩
  · intro x
    rw [hkeys]
    exact mem_btItems l x
  · intro p hp
    rcases hitems : btItems l with _ | ⟨i, rest0⟩
    · exact absurd hitems (btItems_ne_nil l hl)
    · rcases rest0 with _ | ⟨j, rest⟩
      · rw [fit_singleton l i hitems] at hp
        rcases List.mem_singleton.mp hp with rfl
        norm_num
      · rw [fit_general l i j rest hitems] at hp
        obtain ⟨m, _, rfl⟩ := List.mem_map.mp hp
        exact btLoop_pos (winMatrix l) (i :: j :: rest) 100 _
          (fun _ => one_pos) m
  · intro hfl
    rcases hitems : btItems l with _ | ⟨i, rest0⟩
    · exact absurd hitems (btItems_ne_nil l hl)
    · rcases rest0 with _ | ⟨j, rest⟩
      · rw [fit_singleton l i hitems]
        norm_num
      · rw [fit_general l i j rest hitems, List.map_map]
        obtain ⟨v, hv, hshape⟩ :=
          btLoop_shape (winMatrix l) (i :: j :: rest) 100 (by norm_num)
            (fun _ => 1)
        have hmap : ((i :: j :: rest).map
            (Prod.snd ∘ fun m =>
              (m, btLoop (winMatrix l) (i :: j :: rest) 100 (fun _ => 1) m)))
            = (i :: j :: rest).map (btNormalize (i :: j :: rest) v) :=
          List.map_congr_left fun a _ => by
            show btLoop (winMatrix l) (i :: j :: rest) 100 (fun _ => 1) a = _
            rw [hshape]
        rw [hmap]
        apply btNormalize_prod_one (i :: j :: rest) v (List.cons_ne_nil _ _) hv
        intro m hm
        have hpm : (m, btLoop (winMatrix l) (i :: j :: rest) 100
            (fun _ => 1) m) ∈ fitIterativeScaling l := by
          rw [fit_general l i j rest hitems]
          exact List.mem_map.mpr ⟨m, hm, rfl⟩
        have := hfl _ hpm
        rw [show btLoop (winMatrix l) (i :: j :: rest) 100 (fun _ => 1) m =
            btNormalize (i :: j :: rest) v m from by rw [hshape]] at this
        exact this

/-- C3, witness: the amended theorem at the single-tie record list. -/
theorem C3_bt_witness :
    (([⟨"a", "b", .tie, .minor⟩] : List PairwiseResult) ≠ [])
    ∧ (((fitIterativeScaling [⟨"a", "b", .tie, .minor⟩]).map Prod.fst =
          btItems [⟨"a", "b", .tie, .minor⟩])
      ∧ (∀ x, x ∈ (fitIterativeScaling [⟨"a", "b", .tie, .minor⟩]).map
            Prod.fst ↔
          ∃ r ∈ ([⟨"a", "b", .tie, .minor⟩] : List PairwiseResult),
            involves x r)
      ∧ (∀ p ∈ fitIterativeScaling [⟨"a", "b", .tie, .minor⟩], 0 < p.2)
      ∧ ((∀ p ∈ fitIterativeScaling [⟨"a", "b", .tie, .minor⟩],
            (1/10^10 : ℝ) < p.2) →
          ((fitIterativeScaling [⟨"a", "b", .tie, .minor⟩]).map
            Prod.snd).prod = 1)) :=
  ⟨List.cons_ne_nil _ _,
    C3_bt_fit_keys_positive_and_conditional_gm _ (List.cons_ne_nil _ _)⟩

end Claims
end LlmCouncil

namespace LlmCouncil

lemma computeMleElo_lookup_ref (solver : List (List ℝ) → List ℚ → ℕ → ℝ)
    (results : List PairwiseResult) (init_rating scale base : ℝ)
    (ref : Option String) (hl : results ≠ []) (refm : String)
    (href : ref.getD ((eloModels results).headD "") = refm)
    (hmem : refm ∈ eloModels results) :
    (computeMleElo solver results init_rating scale base ref).lookup refm =
      some init_rating := by
  have hbat : ¬ (resultsToBattles results = []) :=
    resultsToBattles_ne_nil results hl
  by_cases hY : (designY (resultsToBattles results ++
      resultsToBattles results)).dedup.length < 2
  · simp only [computeMleElo, if_neg hl, if_neg hbat, if_pos hY]
    exact lookup_map_pair _ _ refm hmem
  · simp only [computeMleElo, if_neg hl, if_neg hbat, if_neg hY]
    rw [show ref.getD ((eloModelsOfBattles (resultsToBattles results)).headD
        "") = refm from href]
    rw [if_pos (show refm ∈ eloModelsOfBattles (resultsToBattles results)
        from hmem)]
    refine Eq.trans (lookup_map_pair _ _ refm hmem) ?_
    congr 1
    ring

end LlmCouncil

namespace LlmCouncil
namespace Claims

/-- C4 (confirmed).  For every non-empty record list and every solver output,
the MLE Elo computation pins the reference participant exactly at the
configured initial rating (exact equality in real arithmetic, hence within
the claimed `1e-6`).  When no reference is specified, the reference is the
head of the sorted model list, which is the lexicographically least
participant (third conjunct). -/
theorem C4_elo_reference_anchoring
    (solver : List (List ℝ) → List ℚ → ℕ → ℝ) (results : List PairwiseResult)
    (init_rating scale base : ℝ) (hl : results ≠ []) :
    ((computeMleElo solver results init_rating scale base none).lookup
        ((eloModels results).headD "") = some init_rating)
    ∧ (∀ refm ∈ eloModels results,
        (computeMleElo solver results init_rating scale base
          (some refm)).lookup refm = some init_rating)
    ∧ (∀ m ∈ eloModels results, (eloModels results).headD "" ≤ m) := by
  refine ⟨?_, ?_, ?_⟩
  · exact computeMleElo_lookup_ref solver results init_rating scale base none
      hl _ rfl (headD_mem (eloModels_ne_nil results hl))
  · intro refm hmem
    exact computeMleElo_lookup_ref solver results init_rating scale base
      (some refm) hl refm rfl hmem
  · exact headD_le_of_sorted (sortStrings_sorted _)

/-- C4, witness at a single minor `a`-win with the zero solver. -/
theorem C4_elo_witness :
    (([⟨"a", "b", .a, .minor⟩] : List PairwiseResult) ≠ [])
    ∧ (((computeMleElo (fun _ _ _ => 0) [⟨"a", "b", .a, .minor⟩]
          1000 400 10 none).lookup
        ((eloModels [⟨"a", "b", .a, .minor⟩]).headD "") = some 1000)
      ∧ (∀ refm ∈ eloModels [⟨"a", "b", .a, .minor⟩],
          (computeMleElo (fun _ _ _ => 0) [⟨"a", "b", .a, .minor⟩]
            1000 400 10 (some refm)).lookup refm = some 1000)
      ∧ (∀ m ∈ eloModels [⟨"a", "b", .a, .minor⟩],
          (eloModels [⟨"a", "b", .a, .minor⟩]).headD "" ≤ m)) :=
  ⟨List.cons_ne_nil _ _,
    C4_elo_reference_anchoring _ _ 1000 400 10 (List.cons_ne_nil _ _)⟩

end Claims
end LlmCouncil

namespace LlmCouncil

lemma dedup_length_lt_two {α : Type} [DecidableEq α] (l : List α)
    (hconst : ∀ y₁ ∈ l, ∀ y₂ ∈ l, y₁ = y₂) : l.dedup.length < 2 := by
  by_contra h
  rcases hd : l.dedup with _ | ⟨a, t⟩
  · rw [hd] at h; simp at h
  · rcases t with _ | ⟨b, t'⟩
    · rw [hd] at h; simp at h
    · have hnd := List.nodup_dedup l
      rw [hd] at hnd
      have hab : a ≠ b := by
        rw [List.nodup_cons] at hnd
        exact fun hcontra => hnd.1 (hcontra ▸ List.mem_cons_self b t')
      have ha : a ∈ l := List.mem_dedup.mp (hd ▸ List.mem_cons_self a _)
      have hb : b ∈ l := List.mem_dedup.mp
        (hd ▸ List.mem_cons_of_mem a (List.mem_cons_self b t'))
      exact hab (hconst a ha b hb)

end LlmCouncil

namespace LlmCouncil
namespace Claims

/-- C10 (confirmed).  When every expanded battle carries the same outcome —
the target vector `Y` over the duplicated battle list is constant, e.g. one
side wins every comparison and there are no ties — `compute_mle_elo` returns
the initial rating for every participant: a unanimous winner is rated the
same as the unanimous loser. -/
theorem C10_elo_constant_outcome_returns_init
    (solver : List (List ℝ) → List ℚ → ℕ → ℝ) (results : List PairwiseResult)
    (init_rating scale base : ℝ) (ref : Option String) (hl : results ≠ [])
    (hconst : ∀ y₁ ∈ designY (resultsToBattles results ++
        resultsToBattles results),
      ∀ y₂ ∈ designY (resultsToBattles results ++ resultsToBattles results),
        y₁ = y₂) :
    ∀ m ∈ eloModels results,
      (computeMleElo solver results init_rating scale base ref).lookup m =
        some init_rating := by
  intro m hm
  have hbat : ¬ (resultsToBattles results = []) :=
    resultsToBattles_ne_nil results hl
  have hY : (designY (resultsToBattles results ++
      resultsToBattles results)).dedup.length < 2 :=
    dedup_length_lt_two _ hconst
  simp only [computeMleElo, if_neg hl, if_neg hbat, if_pos hY]
  exact lookup_map_pair _ _ m hm

/-- C10, witness: a single major win of `"a"` over `"b"` expands to six
battles all won by `model_a`, so `Y` is constantly `1` and both participants
are rated `1000`. -/
theorem C10_elo_witness :
    (([⟨"a", "b", .a, .major⟩] : List PairwiseResult) ≠ [])
    ∧ (∀ y₁ ∈ designY (resultsToBattles [⟨"a", "b", .a, .major⟩] ++
          resultsToBattles [⟨"a", "b", .a, .major⟩]),
        ∀ y₂ ∈ designY (resultsToBattles [⟨"a", "b", .a, .major⟩] ++
          resultsToBattles [⟨"a", "b", .a, .major⟩]), y₁ = y₂)
    ∧ (∀ m ∈ eloModels [⟨"a", "b", .a, .major⟩],
        (computeMleElo (fun _ _ _ => 0) [⟨"a", "b", .a, .major⟩]
          1000 400 10 none).lookup m = some 1000) :=
  ⟨List.cons_ne_nil _ _, by decide,
    C10_elo_constant_outcome_returns_init _ _ 1000 400 10 none
      (List.cons_ne_nil _ _) (by decide)⟩

end Claims
end LlmCouncil

namespace LlmCouncil

/-! ## Bootstrap Elo (`bootstrap_elo`)

`numpy.random` is a global pseudo-random generator.  It is modelled by an
abstract state of type `ℕ` together with two primitives supplied as a
parameter: `seed` (what `np.random.seed(s)` resets the global state to) and
`choice` (what `np.random.choice(n, size=n, replace=True)` samples, plus the
successor state).  `np.median` / `np.percentile` compute order statistics by
sorting; numpy's median of an even-length sample is the mean of the two
central values, which is exactly the linearly interpolated 50th
percentile. -/

structure NpRandom where
  seed : ℕ → ℕ
  choice : ℕ → ℕ → List ℕ × ℕ

noncomputable def insertSortedR (x : ℝ) : List ℝ → List ℝ
  | [] => [x]
  | y :: ys => if y < x then y :: insertSortedR x ys else x :: y :: ys

noncomputable def npSort (l : List ℝ) : List ℝ :=
  l.foldl (fun acc x => insertSortedR x acc) []

/-- `np.percentile(a, q)` with the default linear interpolation between the
two nearest order statistics. -/
noncomputable def npPercentile (l : List ℝ) (q : ℝ) : ℝ :=
  let s := npSort l
  let pos := ((s.length : ℝ) - 1) * q / 100
  let i := (⌊pos⌋).toNat
  let j := min (i + 1) (s.length - 1)
  s.getD i 0 + (s.getD j 0 - s.getD i 0) * (pos - ⌊pos⌋)

noncomputable def npMedian (l : List ℝ) : ℝ := npPercentile l 50

/-- `bootstrap_results[item_id].append(rating)` with on-demand creation of
the entry. -/
noncomputable def dictAppendR (d : List (String × List ℝ)) (k : String)
    (v : ℝ) : List (String × List ℝ) :=
  if (d.lookup k).isSome then
    d.map fun p => if p.1 = k then (p.1, p.2 ++ [v]) else p
  else d ++ [(k, [v])]

/-- `bootstrap_elo`.  For fewer than 100 records the sample is the raw record
list and the generator is not consulted; otherwise `np.random.choice` draws
indices (always in range, so the `getD` default is never read).  The
`try/except` around `compute_mle_elo` is vacuous here because the abstract
solver is total. -/
noncomputable def bootstrapElo (rng : NpRandom)
    (solver : List (List ℝ) → List ℚ → ℕ → ℝ) (results : List PairwiseResult)
    (num_rounds : ℕ) (init_rating : ℝ) (reference_item : Option String)
    (random_seed : Option ℕ) (state : ℕ) : List (String × (ℝ × ℝ × ℝ)) :=
  if results = [] then []
  else if results.length < 2 then []
  else
    let st0 := match random_seed with
      | some s => rng.seed s
      | none => state
    let step : List (String × List ℝ) × ℕ → List (String × List ℝ) × ℕ :=
      fun acc =>
        let sample_st :=
          if results.length < 100 then (results, acc.2)
          else
            let is := rng.choice acc.2 results.length
            (is.1.map fun i => results.getD i ⟨"", "", .tie, .minor⟩, is.2)
        let ratings := computeMleElo solver sample_st.1 init_rating 400 10
          reference_item
        (ratings.foldl (fun d p => dictAppendR d p.1 p.2) acc.1, sample_st.2)
    let final := (List.range num_rounds).foldl (fun acc _ => step acc)
      ([], st0)
    final.1.filterMap fun p =>
      if p.2 = [] then none
      else some (p.1, (npMedian p.2, npPercentile p.2 (5/2),
        npPercentile p.2 (195/2)))

end LlmCouncil

namespace LlmCouncil
namespace Claims

/-- C8 (confirmed).  With a seed supplied, `bootstrap_elo` first resets the
generator state (`np.random.seed(random_seed)`), so the ambient generator
state is irrelevant: two runs over the same records with the same seed
return identical output maps — in particular identical medians and identical
2.5/97.5-percentile confidence intervals for every participant. -/
theorem C8_bootstrap_seed_determinism (rng : NpRandom)
    (solver : List (List ℝ) → List ℚ → ℕ → ℝ) (results : List PairwiseResult)
    (num_rounds : ℕ) (init_rating : ℝ) (reference_item : Option String)
    (s : ℕ) (state₁ state₂ : ℕ) :
    bootstrapElo rng solver results num_rounds init_rating reference_item
        (some s) state₁ =
      bootstrapElo rng solver results num_rounds init_rating reference_item
        (some s) state₂ := rfl

end Claims
end LlmCouncil

namespace LlmCouncil

/-! ## Ranking parsing (`anonymization/core.py`)

`parse_ranking_from_text` and its helper parsers.  Python regexes over
literal patterns are implemented as character-list scanners with the same
semantics (leftmost match, greedy repetition, ordered alternation,
non-overlapping `findall`, `\b` word boundaries, `re.IGNORECASE`).
A Python `valid_ids` of `None` and of `[]` behave identically (both falsy),
so `valid_ids` is a plain list here.  Scanning loops that advance past each
match use the text length as fuel; every match consumes at least one
character, so the fuel never runs out. -/

def isWordChar (c : Char) : Bool := c.isAlpha || c.isDigit || c = '_'

def isWordCharO : Option Char → Bool
  | none => false
  | some c => isWordChar c

def isWS (c : Char) : Bool := c.isWhitespace

/-- Python `pat in s` (substring containment). -/
def listInfix (pat : List Char) : List Char → Bool
  | [] => pat.isEmpty
  | c :: t => pat.isPrefixOf (c :: t) || listInfix pat t

def containsSub (s pat : String) : Bool := listInfix pat.toList s.toList

/-- Python `str.capitalize()`: first character upper-cased, the rest
lower-cased. -/
def pyCapitalize (s : String) : String :=
  match s.toList with
  | [] => ""
  | c :: rest => String.mk (c.toUpper :: rest.map Char.toLower)

/-- `re.sub(r'[(){}\\[\\]=:;,]', ' ', text)` of `_extract_id`. -/
def pySubPunct (s : String) : String :=
  String.mk (s.toList.map fun c =>
    if c ∈ ['(', ')', '\x7b', '\x7d', '[', ']', '=', ':', ';', ','] then ' '
    else c)

/-- Python `str.strip()` over the ASCII whitespace class (kernel-reducible
replacement for `String.trim`, which is defined by well-founded recursion on
byte positions). -/
def pyStrip (s : String) : String :=
  String.mk ((s.toList.dropWhile isWS).reverse.dropWhile isWS).reverse

/-- Python `str.upper()` on the character sets used here. -/
def strUpper (s : String) : String := String.mk (s.toList.map Char.toUpper)

/-- Python `str.lower()` on the character sets used here. -/
def strLower (s : String) : String := String.mk (s.toList.map Char.toLower)

/-- Leftmost match of `\b([A-Z]\d+)\b` under `re.IGNORECASE`: a letter with
no word character before it, one or more digits, and no word character
after; the capture is upper-cased (`extracted.upper()`). -/
def findWordIdAux : Option Char → List Char → Option String
  | _, [] => none
  | prev, c :: rest =>
    if c.isAlpha ∧ ¬ isWordCharO prev then
      let ds := rest.takeWhile Char.isDigit
      if ds ≠ [] ∧ ¬ isWordCharO (rest.drop ds.length).head? then
        some (String.mk (c.toUpper :: ds))
      else findWordIdAux (some c) rest
    else findWordIdAux (some c) rest

def findWordId (l : List Char) : Option String := findWordIdAux none l

/-- The trailing `if valid_ids:` block of `_extract_id`: exact match,
case-insensitive match, then substring match. -/
def extractIdValidBlock (text : String) (valid : List String) :
    Option String :=
  if text ∈ valid then some text
  else
    match valid.find? (fun vid => strLower text == strLower vid) with
    | some vid => some vid
    | none => valid.find? (fun vid => containsSub text vid)

/-- `_extract_id(text, valid_ids)`. -/
def extractId (text0 : String) (valid : List String) : Option String :=
  let text := pyStrip text0
  if text = "" then none
  else
    match findWordId (pyStrip (pySubPunct text)).toList with
    | some ex =>
      if valid ≠ [] then
        match valid.find? (fun vid => ex == strUpper vid) with
        | some vid => some vid
        | none => extractIdValidBlock text valid
      else some ex
    | none =>
      if valid ≠ [] then extractIdValidBlock text valid
      else some text

/-- Python truthiness filter `if id_str:` applied to `_extract_id` results. -/
def extractIdT (text : String) (valid : List String) : Option String :=
  match extractId text valid with
  | some id => if id = "" then none else some id
  | none => none

end LlmCouncil

namespace LlmCouncil

/-- Split on any of the given single characters (used for
`re.split(r"\s*(?:>|→|>>)\s*", ...)` — where the ordered alternation makes
`>>` unreachable, so the separators are the single characters `>` and `→`
with adjacent whitespace, which stripping the parts absorbs — and for
`re.split(r'[,;=]|\n', ...)`). -/
def splitOnChars (seps : List Char) : List Char → List (List Char)
  | [] => [[]]
  | c :: rest =>
    if c ∈ seps then [] :: splitOnChars seps rest
    else
      match splitOnChars seps rest with
      | [] => [[c]]
      | part :: parts => (c :: part) :: parts

/-- `_parse_arrow_notation`. -/
def parseArrowNotation (text : String) (valid : List String) :
    Option (List String) :=
  let parts := (splitOnChars ['>', '→'] text.toList).map String.mk
  if parts.length < 2 then none
  else
    let ids := parts.filterMap fun part => extractIdT (pyStrip part) valid
    if 2 ≤ ids.length then some ids else none

def digitsToNat (ds : List Char) : ℕ :=
  ds.foldl (fun n c => n * 10 + (c.toNat - '0'.toNat)) 0

/-- Ordinal lines `^(\d+)(?:st|nd|rd|th)[:\.)\-]?\s+(.+)$` (IGNORECASE).
Returns the rank and the (stripped) content capture.  The punctuation class
and the suffix contain no whitespace, so the greedy reading needs no
backtracking; a match whose `(.+)` would be entirely whitespace is reported
as no match, which is observationally equal to the source (the stripped
content extracts no id there). -/
def matchOrdinalLine (l : List Char) : Option (ℕ × String) :=
  let ds := l.takeWhile Char.isDigit
  if ds = [] then none
  else
    match l.drop ds.length with
    | c1 :: c2 :: rest2 =>
      let suf := String.mk [c1.toLower, c2.toLower]
      if suf = "st" ∨ suf = "nd" ∨ suf = "rd" ∨ suf = "th" then
        let rest3 := match rest2 with
          | c :: t => if c = ':' ∨ c = '.' ∨ c = ')' ∨ c = '-' then t else rest2
          | [] => rest2
        if rest3.takeWhile isWS = [] then none
        else
          match rest3.dropWhile isWS with
          | [] => none
          | content => some (digitsToNat ds, pyStrip (String.mk content))
      else none
    | _ => none

/-- Numbered lines `^(?:\(?\d+[\.\)\-]?\s+|\d+\s*[-\.)]\s+)(.+)$`.  Returns
the (stripped) content capture; the rank is read separately from the raw
line, as in the source. -/
def matchNumberedLine (l : List Char) : Option String :=
  let branch1 :=
    let l1 := match l with
      | '(' :: t => t
      | _ => l
    let ds := l1.takeWhile Char.isDigit
    if ds = [] then none
    else
      let rest := l1.drop ds.length
      let rest2 := match rest with
        | c :: t => if c = '.' ∨ c = ')' ∨ c = '-' then t else rest
        | [] => rest
      if rest2.takeWhile isWS = [] then none
      else
        match rest2.dropWhile isWS with
        | [] => none
        | content => some (pyStrip (String.mk content))
  match branch1 with
  | some content => some content
  | none =>
    let ds := l.takeWhile Char.isDigit
    if ds = [] then none
    else
      let rest := (l.drop ds.length).dropWhile isWS
      match rest with
      | c :: t =>
        if c = '-' ∨ c = '.' ∨ c = ')' then
          if t.takeWhile isWS = [] then none
          else
            match t.dropWhile isWS with
            | [] => none
            | content => some (pyStrip (String.mk content))
        else none
      | [] => none

/-- Bullet lines `^[-\*\+•]\s+(.+)$`. -/
def matchBulletLine (l : List Char) : Option String :=
  match l with
  | c :: t =>
    if c = '-' ∨ c = '*' ∨ c = '+' ∨ c = '•' then
      if t.takeWhile isWS = [] then none
      else
        match t.dropWhile isWS with
        | [] => none
        | content => some (pyStrip (String.mk content))
    else none
  | [] => none

/-- Stable insertion by the numeric first component (Python `list.sort` is
stable). -/
def insertRanked (p : ℕ × String) : List (ℕ × String) → List (ℕ × String)
  | [] => [p]
  | q :: qs => if q.1 ≤ p.1 then q :: insertRanked p qs else p :: q :: qs

def sortRanked (l : List (ℕ × String)) : List (ℕ × String) :=
  l.foldl (fun acc p => insertRanked p acc) []

/-- `_parse_numbered_list`. -/
def parseNumberedList (text : String) (valid : List String) :
    Option (List String) :=
  let step := fun (acc : List (ℕ × String) × List String) (line0 : String) =>
    let line := pyStrip line0
    if line = "" then acc
    else
      match matchOrdinalLine line.toList with
      | some rc =>
        (match extractIdT rc.2 valid with
          | some id => (acc.1 ++ [(rc.1, id)], acc.2)
          | none => acc)
      | none =>
        match matchNumberedLine line.toList with
        | some content =>
          let ds := line.toList.takeWhile Char.isDigit
          if ds = [] then acc
          else
            (match extractIdT content valid with
              | some id => (acc.1 ++ [(digitsToNat ds, id)], acc.2)
              | none => acc)
        | none =>
          match matchBulletLine line.toList with
          | some content =>
            (match extractIdT content valid with
              | some id => (acc.1, acc.2 ++ [id])
              | none => acc)
          | none => acc
  let acc := ((splitOnChars ['\n'] text.toList).map String.mk).foldl step ([], [])
  if 2 ≤ acc.1.length then some ((sortRanked acc.1).map (·.2))
  else if 2 ≤ acc.2.length then some acc.2
  else none

end LlmCouncil

namespace LlmCouncil

/-- Case-insensitive literal word match at the head of `l`; returns the
remainder on success. -/
def matchPrefixCI : List Char → List Char → Option (List Char)
  | [], l => some l
  | _, [] => none
  | a :: ws, c :: cs => if a.toLower = c.toLower then matchPrefixCI ws cs else none

/-- The capture `([A-Z]\d+|Response\s+[A-Z])` of `_parse_reverse_ranking`
(IGNORECASE, ordered alternation, no word boundaries).  Returns the captured
text (original casing) and the remainder. -/
def matchIdCapture (l : List Char) : Option (String × List Char) :=
  let alt2 :=
    match matchPrefixCI "response".toList l with
    | some rest =>
      let wsN := (rest.takeWhile isWS).length
      if wsN = 0 then none
      else
        match rest.drop wsN with
        | c :: t =>
          if c.isAlpha then
            some (String.mk (l.take 8 ++ rest.take wsN ++ [c]), t)
          else none
        | [] => none
    | none => none
  match l with
  | c :: rest =>
    if c.isAlpha then
      let ds := rest.takeWhile Char.isDigit
      if ds ≠ [] then some (String.mk (c :: ds), rest.drop ds.length)
      else alt2
    else alt2
  | [] => none

def listFirstSome {α β : Type} (f : α → Option β) : List α → Option β
  | [] => none
  | a :: t =>
    match f a with
    | some b => some b
    | none => listFirstSome f t

/-- One attempt of `label\s*[:;\-]?\s*(capture)` at the current position.
The separator characters are not whitespace and cannot start a capture, so
the greedy reading needs no backtracking. -/
def tryLabelAt (words : List (List Char)) (l : List Char) :
    Option (String × List Char) :=
  listFirstSome (fun w =>
    match matchPrefixCI w l with
    | some rest =>
      let r1 := rest.dropWhile isWS
      let r2 := match r1 with
        | c :: t => if c = ':' ∨ c = ';' ∨ c = '-' then t else r1
        | [] => r1
      matchIdCapture (r2.dropWhile isWS)
    | none => none) words

/-- `re.findall` over the label pattern: scan left to right, non-overlapping
matches.  Fuel is the text length; every match consumes at least the
(non-empty) label word. -/
def scanLabels (words : List (List Char)) : ℕ → List Char → List String
  | 0, _ => []
  | _ + 1, [] => []
  | fuel + 1, c :: rest =>
    match tryLabelAt words (c :: rest) with
    | some capAfter => capAfter.1 :: scanLabels words fuel capAfter.2
    | none => scanLabels words fuel rest

/-- `_parse_reverse_ranking`. -/
def parseReverseRanking (text : String) (valid : List String) :
    Option (List String) :=
  let groups : List (ℕ × List (List Char)) :=
    [(0, [("best").toList, ("first").toList, ("top").toList,
        ("winner").toList, ("1st").toList]),
     (1, [("second").toList, ("runner-up").toList, ("runner up").toList,
        ("2nd").toList]),
     (2, [("third").toList, ("3rd").toList]),
     (3, [("worst").toList, ("last").toList, ("bottom").toList,
        ("loser").toList])]
  let items := groups.flatMap fun g =>
    (scanLabels g.2 text.length text.toList).filterMap fun cap =>
      match extractIdT cap valid with
      | some id => some (g.1, id)
      | none => none
  if 2 ≤ items.length then some ((sortRanked items).map (·.2))
  else none

/-- Header-separator lines `^\s*\|?\s*[-:]+\s*\|` of `_parse_table_format`. -/
def isTableSeparatorLine (l : List Char) : Bool :=
  let r1 := l.dropWhile isWS
  let r2 := match r1 with
    | '|' :: t => t
    | _ => r1
  let r3 := r2.dropWhile isWS
  let dashes := r3.takeWhile (fun c => c = '-' ∨ c = ':')
  if dashes.isEmpty then false
  else
    match (r3.drop dashes.length).dropWhile isWS with
    | '|' :: _ => true
    | _ => false

/-- `_parse_table_format`. -/
def parseTableFormat (text : String) (valid : List String) :
    Option (List String) :=
  let ids := ((splitOnChars ['\n'] text.toList).map String.mk).foldl (fun ids line =>
    if line.toList.contains '|' then
      if isTableSeparatorLine line.toList then ids
      else
        ((splitOnChars ['|'] line.toList).map String.mk).foldl (fun ids cell =>
          let cell := pyStrip cell
          if cell = "" then ids
          else if strLower cell ∈ ["rank", "id", "response", "item"] then ids
          else
            match extractIdT cell valid with
            | some id => if id ∈ ids then ids else ids ++ [id]
            | none => ids) ids
    else ids) []
  if 2 ≤ ids.length then some ids else none

/-- Word-boundary check between two (optional) adjacent characters: `\b`
holds where exactly one side is a word character. -/
def boundaryOk (prev cur : Option Char) : Bool := isWordCharO prev != isWordCharO cur

/-- Leftmost `\b<vid>\b` occurrence (match start position).  Empty ids do
not occur among anonymous labels and are treated as absent. -/
def wbFindPos (vid : List Char) : Option Char → ℕ → List Char → Option ℕ
  | _, _, [] => none
  | prev, pos, c :: rest =>
    if vid ≠ [] ∧ vid.isPrefixOf (c :: rest) ∧ boundaryOk prev (some c)
        ∧ boundaryOk vid.getLast? ((c :: rest).drop vid.length).head? then
      some pos
    else wbFindPos vid (some c) (pos + 1) rest

def wordBoundedPos (text vid : String) : Option ℕ :=
  wbFindPos vid.toList none 0 text.toList

/-- All non-overlapping `\b<vid>\b` occurrences (`re.finditer`). -/
def wbFindAll (vid : List Char) : ℕ → Option Char → ℕ → List Char → List ℕ
  | 0, _, _, _ => []
  | _ + 1, _, _, [] => []
  | fuel + 1, prev, pos, c :: rest =>
    if vid ≠ [] ∧ vid.isPrefixOf (c :: rest) ∧ boundaryOk prev (some c)
        ∧ boundaryOk vid.getLast? ((c :: rest).drop vid.length).head? then
      pos :: wbFindAll vid fuel vid.getLast? (pos + vid.length)
        ((c :: rest).drop vid.length)
    else wbFindAll vid fuel (some c) (pos + 1) rest

/-- All non-overlapping `\b([A-Z]\d+)\b` matches (IGNORECASE), original
casing (`_parse_simple_list`, no-`valid_ids` branch). -/
def findAllWordIds : ℕ → Option Char → List Char → List String
  | 0, _, _ => []
  | _ + 1, _, [] => []
  | fuel + 1, prev, c :: rest =>
    if c.isAlpha ∧ ¬ isWordCharO prev then
      let ds := rest.takeWhile Char.isDigit
      if ds ≠ [] ∧ ¬ isWordCharO (rest.drop ds.length).head? then
        String.mk (c :: ds) ::
          findAllWordIds fuel ds.getLast? (rest.drop ds.length)
      else findAllWordIds fuel (some c) rest
    else findAllWordIds fuel (some c) rest

/-- `_parse_simple_list`. -/
def parseSimpleList (text : String) (valid : List String) :
    Option (List String) :=
  let parts := (splitOnChars [',', ';', '=', '\n'] text.toList).map String.mk
  let ids := parts.foldl (fun ids part =>
    match extractIdT (pyStrip part) valid with
    | some id => if id ∈ ids then ids else ids ++ [id]
    | none => ids) []
  if 2 ≤ ids.length then some ids
  else if valid ≠ [] then
    let found := valid.foldl (fun acc vid =>
      if (wordBoundedPos text vid).isSome ∧ vid ∉ acc then acc ++ [vid]
      else acc) []
    if 2 ≤ found.length then
      let withPos := found.filterMap fun vid =>
        (wordBoundedPos text vid).map fun p => (p, vid)
      some ((sortRanked withPos).map (·.2))
    else none
  else
    let ms := findAllWordIds text.length none text.toList
    if 2 ≤ ms.length then
      let ids2 := ms.foldl (fun acc m =>
        if strUpper m ∈ acc then acc else acc ++ [strUpper m]) []
      if 2 ≤ ids2.length then some ids2 else none
    else none

end LlmCouncil

namespace LlmCouncil

/-- The capture `([Rr]esponse\s+[A-Z])` (effectively case-insensitive under
`re.IGNORECASE`), returning the captured text in its original casing and the
remainder. -/
def matchRespCap (l : List Char) : Option (String × List Char) :=
  match matchPrefixCI "response".toList l with
  | some rest =>
    let wsN := (rest.takeWhile isWS).length
    if wsN = 0 then none
    else
      match rest.drop wsN with
      | c :: t =>
        if c.isAlpha then
          some (String.mk (l.take 8 ++ rest.take wsN ++ [c]), t)
        else none
      | [] => none
  | none => none

/-- Body of pattern `\s*\d+[:.)\s]+([Rr]esponse\s+[A-Z])` after the
`(?:^|\n)` anchor.  The separator class cannot start the capture, so greedy
reading suffices. -/
def tryP1Body (l : List Char) : Option (String × List Char) :=
  let r1 := l.dropWhile isWS
  let ds := r1.takeWhile Char.isDigit
  if ds = [] then none
  else
    let r2 := r1.drop ds.length
    let seps := r2.takeWhile fun c => c = ':' ∨ c = '.' ∨ c = ')' ∨ isWS c
    if seps = [] then none
    else matchRespCap (r2.drop seps.length)

/-- Body of pattern `\s*[-*•]\s+([Rr]esponse\s+[A-Z])`. -/
def tryP2Body (l : List Char) : Option (String × List Char) :=
  let r1 := l.dropWhile isWS
  match r1 with
  | c :: t =>
    if c = '-' ∨ c = '*' ∨ c = '•' then
      let ws := t.takeWhile isWS
      if ws = [] then none
      else matchRespCap (t.drop ws.length)
    else none
  | [] => none

/-- `re.finditer` for a `(?:^|\n)<body>` pattern: the body may match at the
start of the string or right after consuming a `\n`.  (The residual
`re.MULTILINE` start-of-line positions coincide with the `\n` alternative
one character later and yield the same captures.)  Matches are
non-overlapping and each consumes at least one character. -/
def scanStartAnchored (body : List Char → Option (String × List Char)) :
    ℕ → ℕ → List Char → Bool → List (ℕ × String)
  | 0, _, _, _ => []
  | fuel + 1, pos, l, isStringStart =>
    match isStringStart, body l with
    | true, some capAfter =>
      (pos, capAfter.1) ::
        scanStartAnchored body fuel (pos + (l.length - capAfter.2.length))
          capAfter.2 false
    | _, _ =>
      match l with
      | [] => []
      | c :: rest =>
        if c = '\n' then
          match body rest with
          | some capAfter =>
            (pos, capAfter.1) ::
              scanStartAnchored body fuel
                (pos + (l.length - capAfter.2.length)) capAfter.2 false
          | none => scanStartAnchored body fuel (pos + 1) rest false
        else scanStartAnchored body fuel (pos + 1) rest false

/-- `re.finditer` for `([Rr]esponse\s+[A-Z])[:;\s]`. -/
def scanP3 : ℕ → ℕ → List Char → List (ℕ × String)
  | 0, _, _ => []
  | _ + 1, _, [] => []
  | fuel + 1, pos, c :: rest =>
    match matchRespCap (c :: rest) with
    | some capAfter =>
      (match capAfter.2 with
        | c2 :: t2 =>
          if c2 = ':' ∨ c2 = ';' ∨ isWS c2 then
            (pos, capAfter.1) ::
              scanP3 fuel (pos + ((c :: rest).length - t2.length)) t2
          else scanP3 fuel (pos + 1) rest
        | [] => scanP3 fuel (pos + 1) rest)
    | none => scanP3 fuel (pos + 1) rest

/-- `_parse_response_labels`. -/
def parseResponseLabels (text : String) (valid : List String) :
    Option (List String) :=
  if valid ≠ [] ∧ valid.any (fun vid => containsSub vid "Response") then
    let p1 := scanStartAnchored tryP1Body (text.length + 1) 0 text.toList true
    let p2 := scanStartAnchored tryP2Body (text.length + 1) 0 text.toList true
    let p3 := scanP3 (text.length + 1) 0 text.toList
    let step := fun (acc : List String × List (ℕ × String)) (m : ℕ × String) =>
      let normalized := pyCapitalize m.2
      if normalized ∈ valid ∧ normalized ∉ acc.1 then
        (acc.1 ++ [normalized], acc.2 ++ [(m.1, normalized)])
      else acc
    let acc := (p1 ++ p2 ++ p3).foldl step ([], [])
    if acc.2 ≠ [] then some ((sortRanked acc.2).map (·.2)) else none
  else none

/-- `_parse_natural_language`. -/
def parseNaturalLanguage (text : String) (valid : List String) :
    Option (List String) :=
  if valid = [] then none
  else
    let found := valid.flatMap fun vid =>
      (wbFindAll vid.toList text.length none 0 text.toList).map fun p =>
        (p, vid)
    if found.length < 2 then none
    else
      let res := (sortRanked found).foldl (fun acc pv =>
        if pv.2 ∈ acc then acc else acc ++ [pv.2]) []
      if 2 ≤ res.length then some res else none

/-- `_ensure_all_ids_included`. -/
def ensureAllIdsIncluded (rankings valid : List String) : List String :=
  valid.foldl (fun res vid => if vid ∈ res then res else res ++ [vid]) rankings

/-- `parse_ranking_from_text`.  The source strips `text` once up front; here
`pyStrip text` is inlined at each use. -/
def parseRankingFromText (text : String) (valid_ids : List String)
    (ensure_all_ids : Bool) : List String :=
  if pyStrip text = "" then []
  else
    match parseArrowNotation (pyStrip text) valid_ids with
    | some m =>
      if ensure_all_ids ∧ valid_ids ≠ [] then ensureAllIdsIncluded m valid_ids
      else m
    | none =>
    match parseNumberedList (pyStrip text) valid_ids with
    | some m =>
      if ensure_all_ids ∧ valid_ids ≠ [] then ensureAllIdsIncluded m valid_ids
      else m
    | none =>
    match parseReverseRanking (pyStrip text) valid_ids with
    | some m =>
      if ensure_all_ids ∧ valid_ids ≠ [] then ensureAllIdsIncluded m valid_ids
      else m
    | none =>
    match parseTableFormat (pyStrip text) valid_ids with
    | some m =>
      if ensure_all_ids ∧ valid_ids ≠ [] then ensureAllIdsIncluded m valid_ids
      else m
    | none =>
    match parseSimpleList (pyStrip text) valid_ids with
    | some m =>
      if ensure_all_ids ∧ valid_ids ≠ [] then ensureAllIdsIncluded m valid_ids
      else m
    | none =>
    match parseResponseLabels (pyStrip text) valid_ids with
    | some m =>
      if ensure_all_ids ∧ valid_ids ≠ [] then ensureAllIdsIncluded m valid_ids
      else m
    | none =>
    match parseNaturalLanguage (pyStrip text) valid_ids with
    | some m =>
      if ensure_all_ids ∧ valid_ids ≠ [] then ensureAllIdsIncluded m valid_ids
      else m
    | none =>
      if ensure_all_ids ∧ valid_ids ≠ [] then valid_ids else []

lemma mem_ensureAllIdsIncluded (v : String) (valid m : List String)
    (h : v ∈ m ∨ v ∈ valid) : v ∈ ensureAllIdsIncluded m valid := by
  unfold ensureAllIdsIncluded
  induction valid generalizing m with
  | nil =>
    rcases h with h | h
    · exact h
    · exact absurd h (List.not_mem_nil v)
  | cons w ws ih =>
    rw [List.foldl_cons]
    apply ih
    rcases h with h | h
    · left
      by_cases hw : w ∈ m
      · rw [if_pos hw]; exact h
      · rw [if_neg hw]; exact List.mem_append_left _ h
    · rcases List.mem_cons.mp h with rfl | h
      · left
        by_cases hw : v ∈ m
        · rw [if_pos hw]; exact hw
        · rw [if_neg hw]
          exact List.mem_append_right _ (List.mem_singleton.mpr rfl)
      · right; exact h

end LlmCouncil

namespace LlmCouncil
namespace Claims

/-- C6, counterexample: with `valid_ids = ["A1", "A2"]` and `ensure_all` set,
the text "A1 > A1" parses through the arrow-notation branch, which does not
deduplicate, so the result lists "A1" twice and is not a permutation of the
valid-id list. -/
theorem C6_parse_ranking_counterexample :
    parseRankingFromText "A1 > A1" ["A1", "A2"] true = ["A1", "A1", "A2"] ∧
    ¬ List.Perm ["A1", "A1", "A2"] ["A1", "A2"] := by
  refine ⟨by decide, by decide⟩

/-- C6, amended: with `ensure_all` set and a non-empty valid-id list,
`parse_ranking_from_text` returns `[]` on whitespace-only text, and on any
other text returns a list containing every valid id at least once (ids absent
from the parse are appended at the tail in valid-id order); the result need
not be a permutation of the valid ids, as duplicates can survive. -/
theorem C6_parse_ranking_ensure_all_covers (text : String) (V : List String)
    (hV : V ≠ []) :
    (pyStrip text = "" → parseRankingFromText text V true = []) ∧
    (¬ pyStrip text = "" → ∀ v ∈ V, v ∈ parseRankingFromText text V true) := by
  constructor
  · intro h
    unfold parseRankingFromText
    rw [if_pos h]
  · intro h v hv
    unfold parseRankingFromText
    rw [if_neg h]
    repeat' split
    all_goals
      first
      | exact mem_ensureAllIdsIncluded v V _ (Or.inr hv)
      | exact hv
      | exact absurd (⟨rfl, hV⟩ : true = true ∧ V ≠ []) (by assumption)

/-- Witness for the amended C6 theorem at the concrete input
`text = "A1 > A1"`, `V = ["A1", "A2"]`. -/
theorem C6_parse_ranking_witness :
    (["A1", "A2"] ≠ ([] : List String)) ∧
    ¬ pyStrip "A1 > A1" = "" ∧
    ∀ v ∈ ["A1", "A2"],
      v ∈ parseRankingFromText "A1 > A1" ["A1", "A2"] true := by
  refine ⟨by decide, by decide, ?_⟩
  exact (C6_parse_ranking_ensure_all_covers "A1 > A1" ["A1", "A2"]
    (by decide)).2 (by decide)

end Claims
end LlmCouncil

namespace LlmCouncil

/-! ## Council orchestration (`council.py`, `peer_review_orchestrator.py`)

The async orchestration is sequential in effect (results are gathered in
registry order), so it is embedded as pure state threading.  A provider is an
abstract total function from a generation request to a `GenerationResult` or
a raised error (`Except.error`); the list of issued provider calls is
returned alongside each result so that claims about "before any Provider
call" are expressible.  Floats carried by the data model are embedded as ℚ
where the code only stores them and as ℝ where they enter the analysis
layer. -/

structure RoleConfig where
  temperature : ℚ
  max_tokens : Option ℕ
deriving DecidableEq, Repr

structure Role where
  name : String
  prompt : String
  model : String
  config : RoleConfig
  weight : ℚ
  depends_on : List String
deriving DecidableEq, Repr

structure CouncilConfig where
  output_mode : String
  aggregation_method : String
  enable_peer_review : Bool
  anonymize : Bool
  chairman_model : Option String
deriving DecidableEq, Repr

structure GenCall where
  prompt : String
  model : String
  temperature : ℚ
  max_tokens : Option ℕ
deriving DecidableEq, Repr

structure GenerationResult where
  content : String
  tokens_used : Option ℕ
  latency_ms : Option ℚ
deriving DecidableEq, Repr

structure CouncilResult where
  role_name : String
  content : String
  model : String
  tokens_used : Option ℕ
  latency_ms : Option ℚ
  error : Option String
deriving DecidableEq, Repr

/-- `CouncilResult.success`: `error is None`. -/
def CouncilResult.success (r : CouncilResult) : Bool := r.error.isNone

structure AnonymizedResult where
  anonymous_id : String
  content : String
  model : String
deriving DecidableEq, Repr

structure MethodScores where
  scores : List (String × ℝ)
  confidence_intervals : Option (List (String × (ℝ × ℝ)))

structure CouncilOutput where
  task : String
  results : List CouncilResult
  output_mode : String
  synthesis : Option String
  metadata : List (String × ℕ)
  confidence_scores : List (String × ℝ)
  aggregate_rankings : List (String × ℝ)
  aggregation_scores : List (String × MethodScores)
  peer_review_texts : List (String × List String)

/-- Python dict assignment `d[k] = v`: overwrite in place if the key exists,
else append (keys keep first-insertion order). -/
def dictUpd (d : List (String × α)) (k : String) (v : α) :
    List (String × α) :=
  if (d.lookup k).isSome then
    d.map fun p => if p.1 = k then (p.1, v) else p
  else d ++ [(k, v)]

/-- A dict built from a comprehension: later values win, keys keep
first-insertion order. -/
def dictOf (l : List (String × α)) : List (String × α) :=
  l.foldl (fun d p => dictUpd d p.1 p.2) []

/-- First-occurrence deduplication: `list(dict.fromkeys(...))` order, i.e.
the key order of `{r.model: r for r in results}`. -/
def dedupFirst (l : List String) : List String :=
  l.foldl (fun acc x => if x ∈ acc then acc else acc ++ [x]) []

/-- `itertools.combinations(l, 2)` in iteration order. -/
def combinations2 : List String → List (String × String)
  | [] => []
  | x :: xs => (xs.map fun y => (x, y)) ++ combinations2 xs

/-- Python `s.replace(pat, rep)` (all non-overlapping occurrences, left to
right) for a non-empty pattern, on character lists with the text length as
fuel. -/
def strReplaceL (pat rep : List Char) : ℕ → List Char → List Char
  | 0, l => l
  | _ + 1, [] => []
  | fuel + 1, c :: t =>
    if pat.isPrefixOf (c :: t) then
      rep ++ strReplaceL pat rep fuel ((c :: t).drop pat.length)
    else c :: strReplaceL pat rep fuel t

def strReplace (s pat rep : String) : String :=
  if pat.toList = [] then s
  else String.mk (strReplaceL pat.toList rep.toList s.toList.length s.toList)

/-- `str.join`. -/
def strJoin (sep : String) : List String → String
  | [] => ""
  | x :: xs => xs.foldl (fun acc y => acc ++ sep ++ y) x

end LlmCouncil

namespace LlmCouncil

/-- `prompts.PAIRWISE_COMPARISON_PROMPT.format(...)`. -/
def pairwiseComparisonPrompt (task id_a id_b content_a content_b : String) :
    String :=
  "You are evaluating responses to the task: \"" ++
    task ++
    "\"\n\nBelow are two responses to compare:\n\n--- Response " ++
    id_a ++
    " ---\n" ++
    content_a ++
    "\n\n--- Response " ++
    id_b ++
    " ---\n" ++
    content_b ++
    "\n\nCompare these responses based on:\n- Accuracy and correctness\n- Clarity and coherence  \n- Completeness of the answer\n- Insightfulness and depth\n\nFirst, provide a brief explanation of your evaluation. Explain what each response does well and what it does poorly. Then, conclude with your verdict using EXACTLY one of these labels in double brackets:\n- [[" ++
    id_a ++
    ">>" ++
    id_b ++
    "]]: The first response is significantly better\n- [[" ++
    id_a ++
    ">" ++
    id_b ++
    "]]: The first response is slightly better\n- [[" ++
    id_a ++
    "=" ++
    id_b ++
    "]]: Both responses are equally good\n- [[" ++
    id_b ++
    ">" ++
    id_a ++
    "]]: The second response is slightly better\n- [[" ++
    id_b ++
    ">>" ++
    id_a ++
    "]]: The second response is significantly better\n\nExample format:\nResponse " ++
    id_a ++
    " provides good detail on X but misses Y...\nResponse " ++
    id_b ++
    " is accurate but lacks depth on Z...\n[[" ++
    id_a ++
    ">" ++
    id_b ++
    "]]\n\nNow provide your evaluation:"

/-- `prompts.CHAIRMAN_SYNTHESIS_PROMPT.format(...)`. -/
def chairmanSynthesisPrompt (task stage1_responses stage2_reviews : String) :
    String :=
  "You are the Chairman of an LLM Council. Multiple AI models have provided responses to a user\x27s question, and then ranked each other\x27s responses.\n\nOriginal Question: " ++
    task ++
    "\n\nSTAGE 1 - Individual Responses:\n" ++
    stage1_responses ++
    "\n\n" ++
    stage2_reviews ++
    "\n\nYour task as Chairman is to synthesize all of this information into a single, comprehensive, accurate answer to the user\x27s original question. Consider:\n- The individual responses and their insights\n- The peer rankings and what they reveal about response quality\n- Any patterns of agreement or disagreement\n\nProvide a clear, well-reasoned final answer that represents the council\x27s collective wisdom:"

/-- `Council._execute_role`: placeholder result without a provider; with one,
a single generate call whose failure is captured in the `error` field. -/
def executeRole (provider : Option (GenCall → Except String GenerationResult))
    (role : Role) (task : String) : CouncilResult × List GenCall :=
  match provider with
  | none =>
    (⟨role.name, "[Placeholder] " ++ role.name ++ " response to: " ++ task,
      role.model, some 0, some 0, none⟩, [])
  | some p =>
    let full_prompt := role.prompt ++ "\n\nTask: " ++ task ++
      "\n\nBe parsimonious in your response. Focus on key points without unnecessary elaboration."
    let call : GenCall :=
      ⟨full_prompt, role.model, role.config.temperature, role.config.max_tokens⟩
    match p call with
    | .ok result =>
      (⟨role.name, result.content, role.model, result.tokens_used,
        result.latency_ms, none⟩, [call])
    | .error e => (⟨role.name, "", role.model, none, none, some e⟩, [call])

/-- `PeerReviewOrchestrator._get_ranking_from_role`: temperature 0.3,
max_tokens 500; empty string without a provider, on empty content, or on a
provider error. -/
def getRankingFromRole
    (provider : Option (GenCall → Except String GenerationResult))
    (role : Role) (review_prompt : String) : String × List GenCall :=
  match provider with
  | none => ("", [])
  | some p =>
    let call : GenCall := ⟨review_prompt, role.model, 3 / 10, some 500⟩
    match p call with
    | .ok result => (result.content, [call])
    | .error _ => ("", [call])

/-- `PeerReviewOrchestrator._parse_pairwise_verdict`: `re.search` of an
escaped-literal pattern is substring containment; id-bearing patterns first,
then the bare fallbacks, in source order. -/
def parsePairwiseVerdict (text id_a id_b : String) : Option String :=
  if containsSub text ("[[" ++ id_a ++ ">>" ++ id_b ++ "]]") then some "A>>B"
  else if containsSub text ("[[" ++ id_a ++ ">" ++ id_b ++ "]]") then some "A>B"
  else if containsSub text ("[[" ++ id_a ++ "=" ++ id_b ++ "]]") then some "A=B"
  else if containsSub text ("[[" ++ id_b ++ ">" ++ id_a ++ "]]") then some "B>A"
  else if containsSub text ("[[" ++ id_b ++ ">>" ++ id_a ++ "]]") then some "B>>A"
  else if containsSub text "[[A>>B]]" then some "A>>B"
  else if containsSub text "[[A>B]]" then some "A>B"
  else if containsSub text "[[A=B]]" then some "A=B"
  else if containsSub text "[[B>A]]" then some "B>A"
  else if containsSub text "[[B>>A]]" then some "B>>A"
  else none

end LlmCouncil

namespace LlmCouncil

/-- One iteration of the inner comparison loop of `conduct_peer_review`:
returns the collected comparison tuple (if the judgment parses), the stored
review text (if the judgment is non-empty), and the provider calls issued.
The source indexes `anonymous_map`/`response_map` with dict lookups that
cannot miss on the executed paths; a miss is embedded as `""`. -/
def reviewOnePair (provider : Option (GenCall → Except String GenerationResult))
    (anonymize : Bool) (amap rmap : List (String × String)) (task : String)
    (judge : Role) (mp : String × String) :
    Option (String × String × String × String) × Option String × List GenCall :=
  let anon_a := (amap.lookup mp.1).getD ""
  let anon_b := (amap.lookup mp.2).getD ""
  let prompt := pairwiseComparisonPrompt task anon_a anon_b
    ((rmap.lookup anon_a).getD "") ((rmap.lookup anon_b).getD "")
  let jt := getRankingFromRole provider judge prompt
  if jt.1 = "" then (none, none, jt.2)
  else
    let text := "Comparing " ++ anon_a ++ " vs " ++ anon_b ++ ":\n" ++ jt.1
    match parsePairwiseVerdict jt.1 anon_a anon_b with
    | none => (none, some text, jt.2)
    | some verdict =>
      let vd :=
        if anonymize then strReplace (strReplace verdict anon_a "A") anon_b "B"
        else strReplace (strReplace verdict mp.1 "A") mp.2 "B"
      (some (judge.model, mp.1, mp.2, vd), some text, jt.2)

/-- All comparisons of one judge role: the loop
`for model_a, model_b in itertools.combinations(models, 2)`. -/
def reviewJudge (provider : Option (GenCall → Except String GenerationResult))
    (anonymize : Bool) (amap rmap : List (String × String)) (task : String)
    (models : List String) (judge : Role) :
    List (String × String × String × String) × List String × List GenCall :=
  (combinations2 models).foldl
    (fun acc mp =>
      let r := reviewOnePair provider anonymize amap rmap task judge mp
      (acc.1 ++ r.1.toList, acc.2.1 ++ r.2.1.toList, acc.2.2 ++ r.2.2))
    ([], [], [])

/-- `PeerReviewOrchestrator.conduct_peer_review`.  `model_map = {r.model: r}`
keys give the participant set (first-occurrence order, duplicates collapsed);
`anonymize_responses` is an abstract parameter `afn`;
`peer_review_texts[judge_model] = []` resets the entry at the start of each
judge iteration, so a later judge with the same model replaces the earlier
texts.  Nothing raises on these paths, so the `PeerReviewError` wrapper is
not reachable in the embedding. -/
def conductPeerReview (afn : List CouncilResult → List AnonymizedResult)
    (provider : Option (GenCall → Except String GenerationResult))
    (registry : List Role) (anonymize : Bool) (task : String)
    (results : List CouncilResult) :
    List (String × String × String × String) × List (String × List String) ×
      List GenCall :=
  let models := dedupFirst (results.map CouncilResult.model)
  let amap :=
    if anonymize then dictOf ((afn results).map fun ar => (ar.model, ar.anonymous_id))
    else dictOf (results.map fun r => (r.model, r.model))
  let rmap :=
    if anonymize then dictOf ((afn results).map fun ar => (ar.anonymous_id, ar.content))
    else dictOf (results.map fun r => (r.model, r.content))
  registry.foldl
    (fun acc judge =>
      let jr := reviewJudge provider anonymize amap rmap task models judge
      (acc.1 ++ jr.1, dictUpd acc.2.1 judge.model jr.2.1, acc.2.2 ++ jr.2.2))
    ([], [], [])

/-- The verdict-conversion loop of `compute_scores_from_pairwise`.  The
`"A=B"` verdict maps to `winner="tie"`, which `PairwiseResult.__post_init__`
rejects with a `ValueError` that propagates (the loop is outside every
`try`); unknown verdicts are skipped (`continue`). -/
def convertComparisons :
    List (String × String × String × String) → Except String (List PairwiseResult)
  | [] => .ok []
  | c :: rest =>
    let verdict := c.2.2.2
    if verdict = "A>>B" then
      (convertComparisons rest).map (⟨c.2.1, c.2.2.1, .a, .major⟩ :: ·)
    else if verdict = "A>B" then
      (convertComparisons rest).map (⟨c.2.1, c.2.2.1, .a, .minor⟩ :: ·)
    else if verdict = "A=B" then
      .error "winner must be \x27a\x27, \x27b\x27, or None, got tie"
    else if verdict = "B>A" then
      (convertComparisons rest).map (⟨c.2.1, c.2.2.1, .b, .minor⟩ :: ·)
    else if verdict = "B>>A" then
      (convertComparisons rest).map (⟨c.2.1, c.2.2.1, .b, .major⟩ :: ·)
    else convertComparisons rest

/-- `PeerReviewOrchestrator.compute_scores_from_pairwise`: Borda,
Bradley–Terry and bootstrap Elo (1000 rounds, ambient generator state) over
the converted records.  The per-method `try/except` fallbacks to empty score
maps are unreachable for the total embedded analyzers. -/
noncomputable def computeScoresFromPairwise (rng : NpRandom)
    (solver : List (List ℝ) → List ℚ → ℕ → ℝ)
    (l : List (String × String × String × String)) (state : ℕ) :
    Except String (List (String × MethodScores)) :=
  match convertComparisons l with
  | .error e => .error e
  | .ok rs =>
    let borda : MethodScores :=
      ⟨(bordaFromPairwise rs).map fun p => (p.1, (p.2 : ℝ)), none⟩
    let bt : MethodScores :=
      if rs ≠ [] then ⟨fitIterativeScaling rs, none⟩ else ⟨[], none⟩
    let elo : MethodScores :=
      if rs ≠ [] ∧ 2 ≤ rs.length then
        let ci := bootstrapElo rng solver rs 1000 1000 none none state
        if ci ≠ [] then
          ⟨ci.map fun p => (p.1, p.2.1),
           some (ci.map fun p => (p.1, (p.2.2.1, p.2.2.2)))⟩
        else ⟨[], none⟩
      else ⟨[], none⟩
    .ok [("borda", borda), ("bradley_terry", bt), ("elo", elo)]

end LlmCouncil

namespace LlmCouncil

/-- `Council._synthesize`: placeholder string without a provider; otherwise a
chairman call (temperature 0.7, max_tokens 4000, model
`chairman_model or "gpt-4"`) whose failure is caught and reported inline. -/
def synthesize
    (provider : Option (GenCall → Except String GenerationResult))
    (config : CouncilConfig) (output : CouncilOutput) : String × List GenCall :=
  match provider with
  | none => ("[Placeholder] Synthesis of results...", [])
  | some p =>
    let inputs := output.results.filterMap fun r =>
      if r.error.isNone then
        some ("--- Perspective: " ++ r.role_name ++ " (" ++ r.model ++
          ") ---\n" ++ r.content)
      else none
    let reviews := output.peer_review_texts.flatMap fun jt =>
      jt.2.map fun text => "Review by " ++ jt.1 ++ ": " ++ text
    let prompt := chairmanSynthesisPrompt output.task (strJoin "\n\n" inputs)
      (if reviews ≠ [] then strJoin "\n\n" reviews
       else "No peer reviews available.")
    let call : GenCall := ⟨prompt, config.chairman_model.getD "gpt-4", 7 / 10,
      some 4000⟩
    match p call with
    | .ok result => (result.content, [call])
    | .error e => ("Synthesis failed: " ++ e, [call])

/-- Step 3 of `deliberate`: fill `output.synthesis` when the output mode is
`"synthesis"` or `"both"`. -/
def finishDeliberate
    (provider : Option (GenCall → Except String GenerationResult))
    (config : CouncilConfig) (out : CouncilOutput) :
    CouncilOutput × List GenCall :=
  if config.output_mode = "synthesis" ∨ config.output_mode = "both" then
    let syn := synthesize provider config out
    ({ out with synthesis := some syn.1 }, syn.2)
  else (out, [])

/-- `Council.deliberate`.  No validation of the task, the registry or the
roles' `depends_on` fields takes place (`ConfigurationError` is never
raised); roles execute in registry order; peer review runs when enabled and
more than one result succeeded; the only exception reachable in the
embedding is the `ValueError` escaping `compute_scores_from_pairwise`, which
the outer handler wraps as `CouncilError("Deliberation failed: ...")`.
`metadata` and `confidence_scores` are never written. -/
noncomputable def deliberate (rng : NpRandom)
    (solver : List (List ℝ) → List ℚ → ℕ → ℝ)
    (afn : List CouncilResult → List AnonymizedResult)
    (provider : Option (GenCall → Except String GenerationResult))
    (registry : List Role) (config : CouncilConfig) (task : String)
    (state : ℕ) : Except String CouncilOutput × List GenCall :=
  let execs := registry.map fun role => executeRole provider role task
  let results := execs.map (·.1)
  let calls1 := execs.flatMap (·.2)
  let base : CouncilOutput :=
    ⟨task, results, config.output_mode, none, [], [], [], [], []⟩
  let successful := results.filter fun r => r.error.isNone
  if config.enable_peer_review ∧ 1 < successful.length then
    let pr := conductPeerReview afn provider registry config.anonymize task
      successful
    if pr.1 ≠ [] then
      match computeScoresFromPairwise rng solver pr.1 state with
      | .error e =>
        (.error ("Deliberation failed: " ++ e), calls1 ++ pr.2.2)
      | .ok aggs =>
        let rankings := match aggs.lookup config.aggregation_method with
          | some ms => ms.scores
          | none => []
        let fin := finishDeliberate provider config
          ⟨task, results, config.output_mode, none, [], [], rankings, aggs,
            pr.2.1⟩
        (.ok fin.1, calls1 ++ pr.2.2 ++ fin.2)
    else
      let fin := finishDeliberate provider config
        ⟨task, results, config.output_mode, none, [], [], [], [], pr.2.1⟩
      (.ok fin.1, calls1 ++ pr.2.2 ++ fin.2)
  else
    let fin := finishDeliberate provider config base
    (.ok fin.1, calls1 ++ fin.2)

end LlmCouncil

namespace LlmCouncil
namespace Claims

/-- C1: `Council.deliberate` performs no configuration validation.  For a
two-role registry whose `depends_on` lists form a cycle (r1 → r2 → r1), the
deliberation does not fail with a `ConfigurationError` before provider work;
it calls the provider once per role and returns a successful output.  This
holds for any ambient generator, solver and anonymizer. -/
theorem C1_cyclic_depends_on_not_validated (rng : NpRandom)
    (solver : List (List ℝ) → List ℚ → ℕ → ℝ)
    (afn : List CouncilResult → List AnonymizedResult) (state : ℕ) :
    deliberate rng solver afn
        (some fun _ => Except.ok ⟨"fine", some 3, some 4⟩)
        [⟨"r1", "p1", "m1", ⟨7 / 10, none⟩, 1, ["r2"]⟩,
         ⟨"r2", "p2", "m2", ⟨7 / 10, none⟩, 1, ["r1"]⟩]
        ⟨"perspectives", "borda", false, false, none⟩ "tsk" state
      = (.ok ⟨"tsk",
          [⟨"r1", "fine", "m1", some 3, some 4, none⟩,
           ⟨"r2", "fine", "m2", some 3, some 4, none⟩],
          "perspectives", none, [], [], [], [], []⟩,
         [⟨"p1\n\nTask: tsk\n\nBe parsimonious in your response. Focus on key points without unnecessary elaboration.",
           "m1", 7 / 10, none⟩,
          ⟨"p2\n\nTask: tsk\n\nBe parsimonious in your response. Focus on key points without unnecessary elaboration.",
           "m2", 7 / 10, none⟩]) := rfl

/-- C7: `deliberate` does not always return `n` results — a judge verdict of
`[[m1=m2]]` (an equality verdict the pairwise prompt explicitly invites)
is converted to `winner="tie"`, which `PairwiseResult.__post_init__`
rejects; the `ValueError` escapes `compute_scores_from_pairwise` and
`deliberate` raises `CouncilError` instead of returning an output. -/
theorem C7_tie_verdict_crashes_deliberate (rng : NpRandom)
    (solver : List (List ℝ) → List ℚ → ℕ → ℝ)
    (afn : List CouncilResult → List AnonymizedResult) (state : ℕ) :
    (deliberate rng solver afn
        (some fun _ => Except.ok ⟨"[[m1=m2]]", some 1, some 1⟩)
        [⟨"r1", "p1", "m1", ⟨7 / 10, none⟩, 1, []⟩,
         ⟨"r2", "p2", "m2", ⟨7 / 10, none⟩, 1, []⟩]
        ⟨"perspectives", "borda", true, false, none⟩ "tsk" state).1
      = .error
          "Deliberation failed: winner must be \x27a\x27, \x27b\x27, or None, got tie" :=
  rfl

end Claims
end LlmCouncil

namespace LlmCouncil

lemma finishDeliberate_metadata
    (provider : Option (GenCall → Except String GenerationResult))
    (config : CouncilConfig) (out : CouncilOutput) :
    (finishDeliberate provider config out).1.metadata = out.metadata := by
  unfold finishDeliberate
  split
  · rfl
  · rfl

end LlmCouncil

namespace LlmCouncil
namespace Claims

/-- C5, amended: `deliberate` never writes `metadata` — every successful
output carries the empty metadata dict, so in particular no
`dropped_judgments` count exists for any deliberation. -/
theorem C5_metadata_never_written (rng : NpRandom)
    (solver : List (List ℝ) → List ℚ → ℕ → ℝ)
    (afn : List CouncilResult → List AnonymizedResult)
    (provider : Option (GenCall → Except String GenerationResult))
    (registry : List Role) (config : CouncilConfig) (task : String)
    (state : ℕ) (out : CouncilOutput) (log : List GenCall)
    (h : deliberate rng solver afn provider registry config task state
      = (.ok out, log)) :
    out.metadata = [] := by
  unfold deliberate at h
  dsimp only at h
  split at h
  · split at h
    · split at h
      · simp at h
      · rw [Prod.mk.injEq] at h
        obtain ⟨h1, -⟩ := h
        rw [Except.ok.injEq] at h1
        subst h1
        rw [finishDeliberate_metadata]
    · rw [Prod.mk.injEq] at h
      obtain ⟨h1, -⟩ := h
      rw [Except.ok.injEq] at h1
      subst h1
      rw [finishDeliberate_metadata]
  · rw [Prod.mk.injEq] at h
    obtain ⟨h1, -⟩ := h
    rw [Except.ok.injEq] at h1
    subst h1
    rw [finishDeliberate_metadata]

/-- C5, counterexample: two judges each issue one judgment ("Both are
fine."), neither parses to a verdict, so both are dropped — yet the returned
output records no `dropped_judgments` count: its metadata dict is empty
(and the aggregation scores are the empty dict rather than three empty
score maps). -/
theorem C5_dropped_judgments_not_counted :
    (deliberate ⟨fun n => n, fun st _ => ([], st)⟩ (fun _ _ _ => 0)
        (fun _ => [])
        (some fun _ => Except.ok ⟨"Both are fine.", some 1, some 1⟩)
        [⟨"r1", "p1", "m1", ⟨7 / 10, none⟩, 1, []⟩,
         ⟨"r2", "p2", "m2", ⟨7 / 10, none⟩, 1, []⟩]
        ⟨"perspectives", "borda", true, false, none⟩ "tsk" 0).1
      = .ok ⟨"tsk",
          [⟨"r1", "Both are fine.", "m1", some 1, some 1, none⟩,
           ⟨"r2", "Both are fine.", "m2", some 1, some 1, none⟩],
          "perspectives", none, [], [], [], [],
          [("m1", ["Comparing m1 vs m2:\nBoth are fine."]),
           ("m2", ["Comparing m1 vs m2:\nBoth are fine."])]⟩ := rfl

/-- Witness for the amended C5 theorem: a concrete deliberation (empty
registry, peer review enabled) returns successfully and its metadata is
empty. -/
theorem C5_metadata_witness :
    deliberate ⟨fun n => n, fun st _ => ([], st)⟩ (fun _ _ _ => 0)
        (fun _ => []) none [] ⟨"perspectives", "borda", true, false, none⟩
        "t" 0
      = (.ok ⟨"t", [], "perspectives", none, [], [], [], [], []⟩, []) ∧
    (⟨"t", [], "perspectives", none, [], [], [], [], []⟩ :
        CouncilOutput).metadata = [] :=
  ⟨rfl,
   C5_metadata_never_written ⟨fun n => n, fun st _ => ([], st)⟩
     (fun _ _ _ => 0) (fun _ => []) none []
     ⟨"perspectives", "borda", true, false, none⟩ "t" 0
     ⟨"t", [], "perspectives", none, [], [], [], [], []⟩ [] rfl⟩

end Claims
end LlmCouncil

namespace LlmCouncil

lemma mem_dedupFirst_foldl (x : String) (l : List String) :
    ∀ acc, x ∈ l.foldl (fun acc y => if y ∈ acc then acc else acc ++ [y]) acc
      ↔ x ∈ acc ∨ x ∈ l := by
  induction l with
  | nil => intro acc; simp
  | cons y ys ih =>
    intro acc
    rw [List.foldl_cons, ih]
    by_cases hy : y ∈ acc
    · rw [if_pos hy]
      simp only [List.mem_cons]
      constructor
      · rintro (h | h)
        · exact Or.inl h
        · exact Or.inr (Or.inr h)
      · rintro (h | rfl | h)
        · exact Or.inl h
        · exact Or.inl hy
        · exact Or.inr h
    · rw [if_neg hy]
      simp only [List.mem_append, List.mem_singleton, List.mem_cons]
      tauto

lemma mem_dedupFirst (x : String) (l : List String) :
    x ∈ dedupFirst l ↔ x ∈ l := by
  unfold dedupFirst
  rw [mem_dedupFirst_foldl]
  simp

lemma nodup_dedupFirst_foldl (l : List String) :
    ∀ acc : List String, acc.Nodup →
      (l.foldl (fun acc y => if y ∈ acc then acc else acc ++ [y]) acc).Nodup := by
  induction l with
  | nil => intro acc h; exact h
  | cons y ys ih =>
    intro acc h
    rw [List.foldl_cons]
    apply ih
    by_cases hy : y ∈ acc
    · rw [if_pos hy]; exact h
    · rw [if_neg hy]
      exact h.append (List.nodup_singleton y)
        (fun a ha hmem => hy ((List.mem_singleton.mp hmem) ▸ ha))

lemma dedupFirst_nodup (l : List String) : (dedupFirst l).Nodup :=
  nodup_dedupFirst_foldl l [] List.nodup_nil

lemma mem_combinations2 (a b : String) :
    ∀ l : List String, (a, b) ∈ combinations2 l → a ∈ l ∧ b ∈ l := by
  intro l
  induction l with
  | nil => intro h; simp [combinations2] at h
  | cons x xs ih =>
    intro h
    simp only [combinations2, List.mem_append, List.mem_map] at h
    rcases h with ⟨y, hy, heq⟩ | h
    · injection heq with h1 h2
      subst h1
      subst h2
      exact ⟨List.mem_cons_self x xs, List.mem_cons_of_mem x hy⟩
    · obtain ⟨ha, hb⟩ := ih h
      exact ⟨List.mem_cons_of_mem x ha, List.mem_cons_of_mem x hb⟩

lemma reviewOnePair_record
    (provider : Option (GenCall → Except String GenerationResult))
    (anonymize : Bool) (amap rmap : List (String × String)) (task : String)
    (judge : Role) (mp : String × String)
    (c : String × String × String × String)
    (h : (reviewOnePair provider anonymize amap rmap task judge mp).1
      = some c) :
    c.1 = judge.model ∧ c.2.1 = mp.1 ∧ c.2.2.1 = mp.2 := by
  unfold reviewOnePair at h
  dsimp only at h
  split at h
  · simp at h
  · split at h
    · simp at h
    · rw [Option.some.injEq] at h
      subst h
      exact ⟨rfl, rfl, rfl⟩

end LlmCouncil

namespace LlmCouncil

lemma reviewJudge_foldl_records
    (provider : Option (GenCall → Except String GenerationResult))
    (anonymize : Bool) (amap rmap : List (String × String)) (task : String)
    (judge : Role) :
    ∀ (ps : List (String × String))
      (acc : List (String × String × String × String) × List String ×
        List GenCall) (c : String × String × String × String),
      c ∈ (ps.foldl (fun acc mp =>
          let r := reviewOnePair provider anonymize amap rmap task judge mp
          (acc.1 ++ r.1.toList, acc.2.1 ++ r.2.1.toList, acc.2.2 ++ r.2.2))
        acc).1 →
      c ∈ acc.1 ∨ ∃ mp ∈ ps,
        (reviewOnePair provider anonymize amap rmap task judge mp).1
          = some c := by
  intro ps
  induction ps with
  | nil => intro acc c h; exact Or.inl h
  | cons mp ps ih =>
    intro acc c h
    rw [List.foldl_cons] at h
    rcases ih _ c h with h2 | ⟨mp2, hmp2, heq⟩
    · dsimp only at h2
      rcases List.mem_append.mp h2 with h3 | h3
      · exact Or.inl h3
      · right
        refine ⟨mp, List.mem_cons_self mp ps, ?_⟩
        cases hr : (reviewOnePair provider anonymize amap rmap task judge
            mp).1 with
        | none => rw [hr] at h3; simp at h3
        | some v =>
          rw [hr] at h3
          simp only [Option.toList_some, List.mem_singleton] at h3
          rw [h3]
    · exact Or.inr ⟨mp2, List.mem_cons_of_mem mp hmp2, heq⟩

lemma reviewJudge_records
    (provider : Option (GenCall → Except String GenerationResult))
    (anonymize : Bool) (amap rmap : List (String × String)) (task : String)
    (models : List String) (judge : Role)
    (c : String × String × String × String)
    (h : c ∈ (reviewJudge provider anonymize amap rmap task models judge).1) :
    c.1 = judge.model ∧ (c.2.1, c.2.2.1) ∈ combinations2 models := by
  unfold reviewJudge at h
  rcases reviewJudge_foldl_records provider anonymize amap rmap task judge
      (combinations2 models) ([], [], []) c h with h2 | ⟨mp, hmp, heq⟩
  · simp at h2
  · obtain ⟨h1, h2, h3⟩ := reviewOnePair_record provider anonymize amap rmap
      task judge mp c heq
    refine ⟨h1, ?_⟩
    rw [h2, h3]
    exact hmp

lemma conductPeerReview_foldl_records
    (provider : Option (GenCall → Except String GenerationResult))
    (anonymize : Bool) (amap rmap : List (String × String)) (task : String)
    (models : List String) :
    ∀ (rs : List Role)
      (acc : List (String × String × String × String) ×
        List (String × List String) × List GenCall)
      (c : String × String × String × String),
      c ∈ (rs.foldl (fun acc judge =>
          let jr := reviewJudge provider anonymize amap rmap task models judge
          (acc.1 ++ jr.1, dictUpd acc.2.1 judge.model jr.2.1,
            acc.2.2 ++ jr.2.2)) acc).1 →
      c ∈ acc.1 ∨ ∃ judge ∈ rs,
        c ∈ (reviewJudge provider anonymize amap rmap task models judge).1 := by
  intro rs
  induction rs with
  | nil => intro acc c h; exact Or.inl h
  | cons judge rs ih =>
    intro acc c h
    rw [List.foldl_cons] at h
    rcases ih _ c h with h2 | ⟨j2, hj2, hmem⟩
    · dsimp only at h2
      rcases List.mem_append.mp h2 with h3 | h3
      · exact Or.inl h3
      · exact Or.inr ⟨judge, List.mem_cons_self judge rs, h3⟩
    · exact Or.inr ⟨j2, List.mem_cons_of_mem judge hj2, hmem⟩

lemma conductPeerReview_records
    (afn : List CouncilResult → List AnonymizedResult)
    (provider : Option (GenCall → Except String GenerationResult))
    (registry : List Role) (anonymize : Bool) (task : String)
    (results : List CouncilResult) (c : String × String × String × String)
    (h : c ∈ (conductPeerReview afn provider registry anonymize task
      results).1) :
    (∃ judge ∈ registry, c.1 = judge.model) ∧
      (c.2.1, c.2.2.1) ∈
        combinations2 (dedupFirst (results.map CouncilResult.model)) := by
  unfold conductPeerReview at h
  dsimp only at h
  rcases conductPeerReview_foldl_records provider anonymize _ _ task
      (dedupFirst (results.map CouncilResult.model)) registry ([], [], []) c h
    with h2 | ⟨judge, hj, hmem⟩
  · simp at h2
  · obtain ⟨h1, h2⟩ := reviewJudge_records provider anonymize _ _ task
      (dedupFirst (results.map CouncilResult.model)) judge c hmem
    exact ⟨⟨judge, hj, h1⟩, h2⟩

end LlmCouncil

namespace LlmCouncil
namespace Claims

/-- C9 (confirmed): peer review keys participants by model id, not role
name.  The participant set is the first-occurrence deduplication of the
`model` fields of the (successful) results handed to
`conduct_peer_review` — duplicate-free, and containing a model exactly when
some result carries it, so two roles sharing a model id collapse into one
participant.  Every collected comparison tuple is keyed by a judge model
from the registry and by a pair of participant model ids drawn from
`itertools.combinations` of that set (these tuples are what the aggregation
scores are computed from). -/
theorem C9_participants_keyed_by_model_id
    (afn : List CouncilResult → List AnonymizedResult)
    (provider : Option (GenCall → Except String GenerationResult))
    (registry : List Role) (anonymize : Bool) (task : String)
    (results : List CouncilResult) :
    (dedupFirst (results.map CouncilResult.model)).Nodup ∧
    (∀ x, x ∈ dedupFirst (results.map CouncilResult.model) ↔
      ∃ r ∈ results, r.model = x) ∧
    (∀ c ∈ (conductPeerReview afn provider registry anonymize task
        results).1,
      (∃ judge ∈ registry, c.1 = judge.model) ∧
      c.2.1 ∈ dedupFirst (results.map CouncilResult.model) ∧
      c.2.2.1 ∈ dedupFirst (results.map CouncilResult.model) ∧
      (c.2.1, c.2.2.1) ∈
        combinations2 (dedupFirst (results.map CouncilResult.model))) := by
  refine ⟨dedupFirst_nodup _, fun x => ?_, fun c hc => ?_⟩
  · exact (mem_dedupFirst x _).trans List.mem_map
  · obtain ⟨hj, hpair⟩ := conductPeerReview_records afn provider registry
      anonymize task results c hc
    obtain ⟨ha, hb⟩ := mem_combinations2 _ _ _ hpair
    exact ⟨hj, ha, hb, hpair⟩

/-- Witness for C9 at a concrete input: three successful results whose
models are `m`, `m`, `n` — the participant set is duplicate-free and
contains `m`, the shared model id. -/
theorem C9_witness :
    (dedupFirst (([⟨"r1", "good", "m", some 1, some 1, none⟩,
        ⟨"r2", "better", "m", some 1, some 1, none⟩,
        ⟨"r3", "best", "n", some 1, some 1, none⟩] :
          List CouncilResult).map CouncilResult.model)).Nodup ∧
    ∃ r ∈ ([⟨"r1", "good", "m", some 1, some 1, none⟩,
        ⟨"r2", "better", "m", some 1, some 1, none⟩,
        ⟨"r3", "best", "n", some 1, some 1, none⟩] : List CouncilResult),
      r.model = "m" := by
  have h := C9_participants_keyed_by_model_id (fun _ => []) none [] false "t"
    [⟨"r1", "good", "m", some 1, some 1, none⟩,
     ⟨"r2", "better", "m", some 1, some 1, none⟩,
     ⟨"r3", "best", "n", some 1, some 1, none⟩]
  exact ⟨h.1, (h.2.1 "m").mp (by decide)⟩

end Claims
end LlmCouncil
